import Mathlib

/-!
Verification of libuwifi's node-tracking core against its specification.

Part 1 embeds the intrusive doubly-linked list of
`src/include/uwifi/cc_list.h` shallowly: list nodes live in a heap
(a total map from addresses to next/prev pairs), and each C function is
translated statement by statement into a heap transformer, reading from
the heap at the moment the corresponding C statement reads it.

Part 2 models the node registry of `src/core/node.h`.  The header only
declares `node_update` and `node_timeout` (node.c is not part of the
sources), so those operations are modelled from the specification.
-/

namespace CCList

/-- `struct cc_list_node`: an entry in a doubly-linked list, holding the
addresses of the next and previous entries. -/
structure cc_list_node where
  next : Nat
  prev : Nat
deriving Repr, DecidableEq

/-- The heap: a total map from addresses to list nodes.  A
`struct cc_list_head` is a node embedded at the head address, as in the
source (`struct cc_list_head { struct cc_list_node n; }`). -/
def Heap : Type := Nat → cc_list_node

/-- Write a whole node at address `a`. -/
def hset (σ : Heap) (a : Nat) (v : cc_list_node) : Heap :=
  fun x => if x = a then v else σ x

/-- `a->next = v`. -/
def setNext (σ : Heap) (a v : Nat) : Heap :=
  hset σ a { σ a with next := v }

/-- `a->prev = v`. -/
def setPrev (σ : Heap) (a v : Nat) : Heap :=
  hset σ a { σ a with prev := v }

/-- `cc_list_head_init(h)`: `h->n.next = h->n.prev = &h->n`. -/
def cc_list_head_init (σ : Heap) (h : Nat) : Heap :=
  hset σ h { next := h, prev := h }

/-- `cc_list_add_(h, n, abortstr)`:
`n->next = h->n.next; n->prev = &h->n; h->n.next->prev = n; h->n.next = n;`
(the debug check is a no-op with `CCAN_LIST_DEBUG` unset). -/
def cc_list_add_ (σ : Heap) (h n : Nat) : Heap :=
  let σ1 := setNext σ n ((σ h).next)
  let σ2 := setPrev σ1 n h
  let σ3 := setPrev σ2 ((σ2 h).next) n
  setNext σ3 h n

/-- `cc_list_add_tail_(h, n, abortstr)`:
`n->next = &h->n; n->prev = h->n.prev; h->n.prev->next = n; h->n.prev = n;` -/
def cc_list_add_tail_ (σ : Heap) (h n : Nat) : Heap :=
  let σ1 := setNext σ n h
  let σ2 := setPrev σ1 n ((σ1 h).prev)
  let σ3 := setNext σ2 ((σ2 h).prev) n
  setPrev σ3 h n

/-- `cc_list_empty_(h, abortstr)`: `return h->n.next == &h->n;` -/
def cc_list_empty_ (σ : Heap) (h : Nat) : Bool :=
  (σ h).next == h

/-- `cc_list_del_(n, abortstr)`:
`n->next->prev = n->prev; n->prev->next = n->next;`
(the debug poisoning is compiled out). -/
def cc_list_del_ (σ : Heap) (n : Nat) : Heap :=
  let σ1 := setPrev σ ((σ n).next) ((σ n).prev)
  setNext σ1 ((σ1 n).prev) ((σ1 n).next)

/-- `cc_list_top_(h, off)`: `NULL` when the list is empty, otherwise the
first entry `h->n.next`.  Entries are identified by the address of their
embedded `cc_list_node`; the `off` pointer arithmetic of `container_of`
is the identity in this representation. -/
def cc_list_top_ (σ : Heap) (h : Nat) : Option Nat :=
  if cc_list_empty_ σ h then none else some ((σ h).next)

/-- `cc_list_tail_(h, off)`: `NULL` when empty, otherwise `h->n.prev`. -/
def cc_list_tail_ (σ : Heap) (h : Nat) : Option Nat :=
  if cc_list_empty_ σ h then none else some ((σ h).prev)

/-- `cc_list_pop_(h, off)`: `NULL` when empty, otherwise unlink and
return the first entry `h->n.next`.  Returns the popped entry together
with the resulting heap. -/
def cc_list_pop_ (σ : Heap) (h : Nat) : Option Nat × Heap :=
  if cc_list_empty_ σ h then (none, σ)
  else
    let n := (σ h).next
    (some n, cc_list_del_ σ n)

/-- `cc_list_append_list_(to, from, abortstr)`:
```
from_tail = from->n.prev; to_tail = to->n.prev;
to->n.prev = from_tail; from_tail->next = &to->n;
to_tail->next = &from->n; from->n.prev = to_tail;
cc_list_del_(&from->n); cc_list_head_init(from);
``` -/
def cc_list_append_list_ (σ : Heap) (toh frm : Nat) : Heap :=
  let from_tail := (σ frm).prev
  let to_tail := (σ toh).prev
  let σ1 := setPrev σ toh from_tail
  let σ2 := setNext σ1 from_tail toh
  let σ3 := setNext σ2 to_tail frm
  let σ4 := setPrev σ3 frm to_tail
  let σ5 := cc_list_del_ σ4 frm
  cc_list_head_init σ5 frm

/-- `links σ l` holds when every two consecutive addresses `u, v` of `l`
are doubly linked in `σ`: `u->next = v` and `v->prev = u`. -/
def links (σ : Heap) : List Nat → Prop
  | [] => True
  | [_] => True
  | u :: v :: rest => (σ u).next = v ∧ (σ v).prev = u ∧ links σ (v :: rest)

/-- The heap `σ` represents, at head `h`, the well-formed cyclic list
whose entries are `xs` in order: the cycle `h → xs → h` is doubly
linked, and the head and the entries are pairwise distinct addresses. -/
def repr (σ : Heap) (h : Nat) (xs : List Nat) : Prop :=
  links σ (h :: xs ++ [h]) ∧ (h :: xs).Nodup

theorem hset_same (σ : Heap) (a : Nat) (v : cc_list_node) : hset σ a v a = v := by
  simp [hset]

theorem hset_other (σ : Heap) (a : Nat) (v : cc_list_node) {x : Nat} (hx : x ≠ a) :
    hset σ a v x = σ x := by
  simp [hset, hx]

theorem setNext_next_same (σ : Heap) (a v : Nat) : (setNext σ a v a).next = v := by
  simp [setNext, hset]

theorem setNext_prev (σ : Heap) (a v x : Nat) : (setNext σ a v x).prev = (σ x).prev := by
  by_cases hx : x = a <;> simp [setNext, hset, hx]

theorem setNext_other (σ : Heap) (a v : Nat) {x : Nat} (hx : x ≠ a) :
    setNext σ a v x = σ x := by
  simp [setNext, hset, hx]

theorem setPrev_prev_same (σ : Heap) (a v : Nat) : (setPrev σ a v a).prev = v := by
  simp [setPrev, hset]

theorem setPrev_next (σ : Heap) (a v x : Nat) : (setPrev σ a v x).next = (σ x).next := by
  by_cases hx : x = a <;> simp [setPrev, hset, hx]

theorem setPrev_other (σ : Heap) (a v : Nat) {x : Nat} (hx : x ≠ a) :
    setPrev σ a v x = σ x := by
  simp [setPrev, hset, hx]

theorem links_cons_cons {σ : Heap} {u v : Nat} {rest : List Nat} :
    links σ (u :: v :: rest) ↔
      (σ u).next = v ∧ (σ v).prev = u ∧ links σ (v :: rest) :=
  Iff.rfl

/-- Frame rule: `links` only reads `next` on all but the last element and
`prev` on all but the first, so it transports to any heap agreeing
there. -/
theorem links_agree {σ σ' : Heap} :
    ∀ l : List Nat,
      (∀ x ∈ l.dropLast, (σ' x).next = (σ x).next) →
      (∀ x ∈ l.tail, (σ' x).prev = (σ x).prev) →
      links σ l → links σ' l := by
  intro l
  induction l with
  | nil => intro _ _ _; trivial
  | cons u t ih =>
    cases t with
    | nil => intro _ _ _; trivial
    | cons v rest =>
      intro hn hp hl
      rcases links_cons_cons.mp hl with ⟨h1, h2, h3⟩
      refine links_cons_cons.mpr ⟨?_, ?_, ?_⟩
      · rw [hn u (by rw [List.dropLast_cons₂]; exact List.mem_cons_self u _), h1]
      · rw [hp v (List.mem_cons_self v rest), h2]
      · refine ih ?_ ?_ h3
        · intro x hx
          exact hn x (by rw [List.dropLast_cons₂]; exact List.mem_cons_of_mem u hx)
        · intro x hx
          exact hp x (List.mem_cons_of_mem v hx)

/-- A doubly-linked chain splits at any interior element. -/
theorem links_split {σ : Heap} :
    ∀ (l1 : List Nat) (m : Nat) (l2 : List Nat),
      links σ (l1 ++ m :: l2) ↔ links σ (l1 ++ [m]) ∧ links σ (m :: l2) := by
  intro l1
  induction l1 with
  | nil =>
    intro m l2
    simp only [List.nil_append]
    cases l2 with
    | nil => simp [links]
    | cons y ys => simp [links]
  | cons u t ih =>
    intro m l2
    cases t with
    | nil =>
      cases l2 with
      | nil => simp [links]
      | cons y ys =>
        simp only [List.cons_append, List.nil_append]
        rw [links_cons_cons, links_cons_cons]
        constructor
        · rintro ⟨h1, h2, h3⟩
          exact ⟨⟨h1, h2, trivial⟩, h3⟩
        · rintro ⟨⟨h1, h2, _⟩, h3⟩
          exact ⟨h1, h2, h3⟩
    | cons v rest =>
      simp only [List.cons_append] at *
      rw [links_cons_cons, links_cons_cons]
      constructor
      · rintro ⟨h1, h2, h3⟩
        rcases (ih m l2).mp h3 with ⟨ha, hb⟩
        exact ⟨⟨h1, h2, ha⟩, hb⟩
      · rintro ⟨⟨h1, h2, ha⟩, hb⟩
        exact ⟨h1, h2, (ih m l2).mpr ⟨ha, hb⟩⟩

/-- In a chain ending at `m`, `m`'s back pointer is the last element
before it. -/
theorem links_prev_last {σ : Heap} :
    ∀ (u : Nat) (l : List Nat) (m : Nat), links σ (u :: l ++ [m]) →
      (σ m).prev = (u :: l).getLast (List.cons_ne_nil u l) := by
  intro u l
  induction l generalizing u with
  | nil =>
    intro m hl
    rcases links_cons_cons.mp hl with ⟨_, h2, _⟩
    simpa using h2
  | cons v rest ih =>
    intro m hl
    rcases links_cons_cons.mp hl with ⟨_, _, h3⟩
    rw [List.getLast_cons (List.cons_ne_nil v rest)]
    exact ih v m h3

theorem links_next_head {σ : Heap} {u v : Nat} {rest : List Nat}
    (hl : links σ (u :: v :: rest)) : (σ u).next = v :=
  (links_cons_cons.mp hl).1

theorem links_tail {σ : Heap} {u : Nat} {l : List Nat}
    (hl : links σ (u :: l)) : links σ l := by
  cases l with
  | nil => trivial
  | cons v rest => exact (links_cons_cons.mp hl).2.2

/-- Pointwise reads through `cc_list_add_`. -/
theorem add_next_head (σ : Heap) (h n : Nat) :
    (cc_list_add_ σ h n h).next = n := by
  simp only [cc_list_add_]
  exact setNext_next_same ..

theorem add_node_next (σ : Heap) {h n : Nat} (hnh : n ≠ h)
    (hnq : n ≠ (σ h).next) :
    (cc_list_add_ σ h n n).next = (σ h).next := by
  simp only [cc_list_add_]
  have hq : (setPrev (setNext σ n (σ h).next) n h h).next = (σ h).next := by
    rw [setPrev_next, setNext_other _ _ _ (Ne.symm hnh)]
  rw [hq, setNext_other _ _ _ hnh, setPrev_other _ _ _ hnq, setPrev_next,
    setNext_next_same]

theorem add_node_prev (σ : Heap) {h n : Nat} (hnh : n ≠ h)
    (hnq : n ≠ (σ h).next) :
    (cc_list_add_ σ h n n).prev = h := by
  simp only [cc_list_add_]
  have hq : (setPrev (setNext σ n (σ h).next) n h h).next = (σ h).next := by
    rw [setPrev_next, setNext_other _ _ _ (Ne.symm hnh)]
  rw [hq, setNext_other _ _ _ hnh, setPrev_other _ _ _ hnq, setPrev_prev_same]

theorem add_prev_headnext (σ : Heap) {h n : Nat} (hnh : n ≠ h) :
    (cc_list_add_ σ h n ((σ h).next)).prev = n := by
  simp only [cc_list_add_]
  have hq : (setPrev (setNext σ n (σ h).next) n h h).next = (σ h).next := by
    rw [setPrev_next, setNext_other _ _ _ (Ne.symm hnh)]
  rw [hq, setNext_prev, setPrev_prev_same]

theorem add_next_other (σ : Heap) {h n x : Nat} (hx1 : x ≠ h) (hx2 : x ≠ n) :
    (cc_list_add_ σ h n x).next = (σ x).next := by
  simp only [cc_list_add_]
  rw [setNext_other _ _ _ hx1, setPrev_next, setPrev_next,
    setNext_other _ _ _ hx2]

theorem add_prev_other (σ : Heap) {h n x : Nat} (hnh : n ≠ h) (hx2 : x ≠ n)
    (hx3 : x ≠ (σ h).next) :
    (cc_list_add_ σ h n x).prev = (σ x).prev := by
  simp only [cc_list_add_]
  have hq : (setPrev (setNext σ n (σ h).next) n h h).next = (σ h).next := by
    rw [setPrev_next, setNext_other _ _ _ (Ne.symm hnh)]
  rw [setNext_prev, hq, setPrev_other _ _ _ hx3, setPrev_other _ _ _ hx2,
    setNext_prev]

/-- Pointwise reads through `cc_list_add_tail_`. -/
theorem addtail_prev_head (σ : Heap) (h n : Nat) :
    (cc_list_add_tail_ σ h n h).prev = n := by
  simp only [cc_list_add_tail_]
  exact setPrev_prev_same ..

theorem addtail_node_next (σ : Heap) {h n : Nat} (hnh : n ≠ h)
    (hnp : n ≠ (σ h).prev) :
    (cc_list_add_tail_ σ h n n).next = h := by
  simp only [cc_list_add_tail_]
  have hp1 : (setNext σ n h h).prev = (σ h).prev := by rw [setNext_prev]
  rw [hp1]
  have hp2 : (setPrev (setNext σ n h) n (σ h).prev h).prev = (σ h).prev := by
    rw [setPrev_other _ _ _ (Ne.symm hnh), setNext_prev]
  rw [hp2, setPrev_other _ _ _ hnh, setNext_other _ _ _ hnp, setPrev_next,
    setNext_next_same]

theorem addtail_node_prev (σ : Heap) {h n : Nat} (hnh : n ≠ h)
    (hnp : n ≠ (σ h).prev) :
    (cc_list_add_tail_ σ h n n).prev = (σ h).prev := by
  simp only [cc_list_add_tail_]
  have hp1 : (setNext σ n h h).prev = (σ h).prev := by rw [setNext_prev]
  rw [hp1]
  have hp2 : (setPrev (setNext σ n h) n (σ h).prev h).prev = (σ h).prev := by
    rw [setPrev_other _ _ _ (Ne.symm hnh), setNext_prev]
  rw [hp2, setPrev_other _ _ _ hnh, setNext_other _ _ _ hnp,
    setPrev_prev_same]

theorem addtail_next_headprev (σ : Heap) {h n : Nat} (hnh : n ≠ h) :
    (cc_list_add_tail_ σ h n ((σ h).prev)).next = n := by
  simp only [cc_list_add_tail_]
  have hp1 : (setNext σ n h h).prev = (σ h).prev := by rw [setNext_prev]
  rw [hp1]
  have hp2 : (setPrev (setNext σ n h) n (σ h).prev h).prev = (σ h).prev := by
    rw [setPrev_other _ _ _ (Ne.symm hnh), setNext_prev]
  rw [hp2, setPrev_next, setNext_next_same]

theorem addtail_next_other (σ : Heap) {h n x : Nat} (hnh : n ≠ h)
    (hx2 : x ≠ n) (hx3 : x ≠ (σ h).prev) :
    (cc_list_add_tail_ σ h n x).next = (σ x).next := by
  simp only [cc_list_add_tail_]
  have hp1 : (setNext σ n h h).prev = (σ h).prev := by rw [setNext_prev]
  rw [hp1]
  have hp2 : (setPrev (setNext σ n h) n (σ h).prev h).prev = (σ h).prev := by
    rw [setPrev_other _ _ _ (Ne.symm hnh), setNext_prev]
  rw [hp2, setPrev_next, setNext_other _ _ _ hx3, setPrev_next,
    setNext_other _ _ _ hx2]

theorem addtail_prev_other (σ : Heap) {h n x : Nat} (hx1 : x ≠ h)
    (hx2 : x ≠ n) :
    (cc_list_add_tail_ σ h n x).prev = (σ x).prev := by
  simp only [cc_list_add_tail_]
  rw [setPrev_other _ _ _ hx1, setNext_prev, setPrev_other _ _ _ hx2,
    setNext_prev]

/-- On a well-formed list, `cc_list_empty_` decides whether the entry
list is `[]`. -/
theorem repr_empty_iff {σ : Heap} {h : Nat} {xs : List Nat}
    (hr : repr σ h xs) : (cc_list_empty_ σ h = true ↔ xs = []) := by
  obtain ⟨hl, hd⟩ := hr
  cases xs with
  | nil =>
    have : (σ h).next = h := links_next_head (by simpa using hl)
    simp [cc_list_empty_, this]
  | cons x rest =>
    have h1 : (σ h).next = x := links_next_head hl
    have h2 : h ≠ x := by
      rw [List.nodup_cons] at hd
      exact fun e => hd.1 (e ▸ List.mem_cons_self x rest)
    simp [cc_list_empty_, h1, Ne.symm h2]

/-- `cc_list_add_` prepends a fresh entry to a well-formed list. -/
theorem repr_add {σ : Heap} {h n : Nat} {xs : List Nat}
    (hr : repr σ h xs) (hn : n ∉ (h :: xs)) :
    repr (cc_list_add_ σ h n) h (n :: xs) := by
  obtain ⟨hl, hd⟩ := hr
  rw [List.mem_cons] at hn
  push_neg at hn
  obtain ⟨hnh, hnxs⟩ := hn
  cases xs with
  | nil =>
    have hq0 : (σ h).next = h := links_next_head (by simpa using hl)
    constructor
    · show links _ (h :: [n] ++ [h])
      refine links_cons_cons.mpr ⟨add_next_head .., ?_,
        links_cons_cons.mpr ⟨?_, ?_, trivial⟩⟩
      · exact add_node_prev σ hnh (by rw [hq0]; exact hnh)
      · rw [add_node_next σ hnh (by rw [hq0]; exact hnh), hq0]
      · have := add_prev_headnext σ (h := h) (n := n) hnh
        rwa [hq0] at this
    · simp [Ne.symm hnh]
  | cons x rest =>
    rcases links_cons_cons.mp hl with ⟨hq0, hpx, hrest⟩
    rw [List.nodup_cons, List.nodup_cons] at hd
    obtain ⟨hh1, hx1, hd2⟩ := hd
    have hhx : h ≠ x := fun e => hh1 (e ▸ List.mem_cons_self x rest)
    have hhrest : h ∉ rest := fun e => hh1 (List.mem_cons_of_mem x e)
    have hnx : n ≠ x := fun e => hnxs (e ▸ List.mem_cons_self x rest)
    have hnrest : n ∉ rest := fun e => hnxs (List.mem_cons_of_mem x e)
    constructor
    · show links _ (h :: n :: x :: rest ++ [h])
      refine links_cons_cons.mpr ⟨add_next_head .., ?_,
        links_cons_cons.mpr ⟨?_, ?_, ?_⟩⟩
      · exact add_node_prev σ hnh (by rw [hq0]; exact hnx)
      · rw [add_node_next σ hnh (by rw [hq0]; exact hnx), hq0]
      · have := add_prev_headnext σ (h := h) (n := n) hnh
        rwa [hq0] at this
      · refine links_agree (x :: rest ++ [h]) ?_ ?_ hrest
        · intro y hy
          rw [show (x :: rest ++ [h]).dropLast = x :: rest from
            List.dropLast_concat ..] at hy
          have hyh : y ≠ h := by
            rintro rfl
            rcases List.mem_cons.mp hy with e | e
            · exact hhx e
            · exact hhrest e
          have hyn : y ≠ n := by
            rintro rfl
            exact hnxs hy
          exact add_next_other σ hyh hyn
        · intro y hy
          simp only [List.tail_cons] at hy
          have hyn : y ≠ n := by
            rintro rfl
            rcases List.mem_append.mp hy with e | e
            · exact hnrest e
            · exact hnh (List.mem_singleton.mp e)
          have hyx : y ≠ (σ h).next := by
            rw [hq0]
            rintro rfl
            rcases List.mem_append.mp hy with e | e
            · exact hx1 e
            · exact hhx (List.mem_singleton.mp e).symm
          exact add_prev_other σ hnh hyn hyx
    · rw [List.nodup_cons, List.nodup_cons, List.nodup_cons]
      refine ⟨?_, ?_, hx1, hd2⟩
      · rw [List.mem_cons, List.mem_cons]
        push_neg
        exact ⟨Ne.symm hnh, hhx, hhrest⟩
      · rw [List.mem_cons]
        push_neg
        exact ⟨hnx, hnrest⟩

/-- `cc_list_add_tail_` appends a fresh entry to a well-formed list. -/
theorem repr_add_tail {σ : Heap} {h n : Nat} {xs : List Nat}
    (hr : repr σ h xs) (hn : n ∉ (h :: xs)) :
    repr (cc_list_add_tail_ σ h n) h (xs ++ [n]) := by
  obtain ⟨hl, hd⟩ := hr
  rw [List.mem_cons] at hn
  push_neg at hn
  obtain ⟨hnh, hnxs⟩ := hn
  cases xs with
  | nil =>
    have hp0 : (σ h).prev = h := (links_cons_cons.mp (by simpa using hl)).2.1
    constructor
    · show links _ (h :: [n] ++ [h])
      refine links_cons_cons.mpr ⟨?_, ?_,
        links_cons_cons.mpr ⟨?_, ?_, trivial⟩⟩
      · have := addtail_next_headprev σ (h := h) (n := n) hnh
        rwa [hp0] at this
      · rw [addtail_node_prev σ hnh (by rw [hp0]; exact hnh), hp0]
      · exact addtail_node_next σ hnh (by rw [hp0]; exact hnh)
      · exact addtail_prev_head ..
    · simp [Ne.symm hnh]
  | cons x rest =>
    set xs := x :: rest with hxs
    have hne : xs ≠ [] := by simp [hxs]
    set t := xs.getLast hne with ht
    have hsplit2 : xs.dropLast ++ [t] = xs := List.dropLast_append_getLast hne
    have hpt : (σ h).prev = t := by
      have := links_prev_last h xs h hl
      rwa [List.getLast_cons hne] at this
    have ht_mem : t ∈ xs := List.getLast_mem hne
    rw [List.nodup_cons] at hd
    obtain ⟨hh1, hd2⟩ := hd
    have hth : t ≠ h := fun e => hh1 (e ▸ ht_mem)
    have htn : t ≠ n := fun e => hnxs (e ▸ ht_mem)
    have htdrop : t ∉ xs.dropLast := by
      intro hmem
      have : xs.Nodup := hd2
      rw [← hsplit2, List.nodup_append] at this
      exact this.2.2 hmem (List.mem_singleton_self t)
    have hlsplit : links σ ((h :: xs.dropLast) ++ [t]) ∧ links σ (t :: [h]) := by
      apply (links_split (h :: xs.dropLast) t [h]).mp
      have e1 : (h :: xs.dropLast) ++ t :: [h] = (h :: xs) ++ [h] := by
        simp only [List.cons_append, List.cons.injEq, true_and]
        rw [show xs.dropLast ++ t :: [h] = (xs.dropLast ++ [t]) ++ [h] by
          simp, hsplit2]
      rw [e1]
      exact hl
    obtain ⟨hA, hB⟩ := hlsplit
    constructor
    · show links _ (h :: (xs ++ [n]) ++ [h])
      have e2 : h :: (xs ++ [n]) ++ [h] =
          (h :: xs.dropLast) ++ t :: (n :: [h]) := by
        simp only [List.cons_append, List.cons.injEq, true_and]
        rw [show xs.dropLast ++ t :: n :: [h] =
          (xs.dropLast ++ [t]) ++ n :: [h] by simp, hsplit2]
        simp
      rw [e2]
      apply (links_split (h :: xs.dropLast) t (n :: [h])).mpr
      constructor
      · refine links_agree ((h :: xs.dropLast) ++ [t]) ?_ ?_ hA
        · intro y hy
          rw [List.dropLast_concat] at hy
          rcases List.mem_cons.mp hy with rfl | hy2
          · exact addtail_next_other σ hnh (Ne.symm hnh)
              (by rw [hpt]; exact Ne.symm hth)
          · have hyx : y ∈ xs := by rw [← hsplit2]; exact List.mem_append_left _ hy2
            refine addtail_next_other σ hnh (fun e => hnxs (e ▸ hyx)) ?_
            rw [hpt]
            exact fun e => htdrop (e ▸ hy2)
        · intro y hy
          simp only [List.tail_cons] at hy
          have hyx : y ∈ xs := by rw [← hsplit2]; exact hy
          exact addtail_prev_other σ (fun e => hh1 (e ▸ hyx))
            (fun e => hnxs (e ▸ hyx))
      · refine links_cons_cons.mpr ⟨?_, ?_, links_cons_cons.mpr ⟨?_, ?_, trivial⟩⟩
        · have := addtail_next_headprev σ (h := h) (n := n) hnh
          rwa [hpt] at this
        · rw [addtail_node_prev σ hnh (by rw [hpt]; exact Ne.symm htn), hpt]
        · exact addtail_node_next σ hnh (by rw [hpt]; exact Ne.symm htn)
        · exact addtail_prev_head ..
    · rw [List.nodup_cons]
      constructor
      · rw [List.mem_append]
        push_neg
        exact ⟨hh1, by simpa using hnh.symm⟩
      · rw [List.nodup_append]
        exact ⟨hd2, List.nodup_singleton n,
          fun y hy hy2 => hnxs ((List.mem_singleton.mp hy2) ▸ hy)⟩

/-- Pointwise reads through `cc_list_del_` (for an entry that is not its
own successor, as in any well-formed list with a head sentinel). -/
theorem del_prev_q (σ : Heap) {x : Nat} (hxq : (σ x).next ≠ x) :
    (cc_list_del_ σ x ((σ x).next)).prev = (σ x).prev := by
  simp only [cc_list_del_]
  rw [setPrev_other _ _ _ (Ne.symm hxq), setNext_prev, setPrev_prev_same]

theorem del_next_p (σ : Heap) {x : Nat} (hxq : (σ x).next ≠ x) :
    (cc_list_del_ σ x ((σ x).prev)).next = (σ x).next := by
  simp only [cc_list_del_]
  rw [setPrev_other _ _ _ (Ne.symm hxq), setNext_next_same]

theorem del_next_other (σ : Heap) {x y : Nat} (hxq : (σ x).next ≠ x)
    (hy : y ≠ (σ x).prev) : (cc_list_del_ σ x y).next = (σ y).next := by
  simp only [cc_list_del_]
  rw [setPrev_other _ _ _ (Ne.symm hxq),
    setNext_other _ _ _ hy, setPrev_next]

theorem del_prev_other (σ : Heap) {x y : Nat} (hxq : (σ x).next ≠ x)
    (hy : y ≠ (σ x).next) : (cc_list_del_ σ x y).prev = (σ y).prev := by
  simp only [cc_list_del_]
  rw [setPrev_other _ _ _ (Ne.symm hxq), setNext_prev,
    setPrev_other _ _ _ hy]

/-- `cc_list_pop_` on a well-formed non-empty list returns the first
entry and leaves the rest of the list well-formed in order. -/
theorem repr_pop {σ : Heap} {h x : Nat} {rest : List Nat}
    (hr : repr σ h (x :: rest)) :
    (cc_list_pop_ σ h).1 = some x ∧ repr (cc_list_pop_ σ h).2 h rest := by
  obtain ⟨hl, hd⟩ := hr
  rcases links_cons_cons.mp hl with ⟨hq0, hpx, hrest⟩
  rw [List.nodup_cons] at hd
  obtain ⟨hh1, hd2⟩ := hd
  have hhx : h ≠ x := fun e => hh1 (e ▸ List.mem_cons_self x rest)
  have hne : cc_list_empty_ σ h = false := by
    simp [cc_list_empty_, hq0, Ne.symm hhx]
  have hpop : cc_list_pop_ σ h = (some ((σ h).next), cc_list_del_ σ ((σ h).next)) := by
    simp [cc_list_pop_, hne]
  rw [hpop, hq0]
  refine ⟨rfl, ?_, ?_⟩
  · cases rest with
    | nil =>
      rcases links_cons_cons.mp hrest with ⟨hxh, hph, _⟩
      have hxq : (σ x).next ≠ x := by rw [hxh]; exact hhx
      show links _ (h :: [h])
      refine links_cons_cons.mpr ⟨?_, ?_, trivial⟩
      · have := del_next_p σ hxq
        rw [hpx] at this
        rw [this, hxh]
      · have := del_prev_q σ hxq
        rw [hxh] at this
        rw [this, hpx]
    | cons y rest2 =>
      rcases links_cons_cons.mp hrest with ⟨hxy, hyx, hrest2⟩
      rw [List.nodup_cons] at hd2
      obtain ⟨hx1, hd3⟩ := hd2
      have hxy2 : x ≠ y := fun e => hx1 (e ▸ List.mem_cons_self y rest2)
      have hhy : h ≠ y := fun e => hh1 (List.mem_cons_of_mem x
        (e ▸ List.mem_cons_self y rest2))
      have hhrest2 : h ∉ rest2 := fun e => hh1 (List.mem_cons_of_mem x
        (List.mem_cons_of_mem y e))
      have hyrest2 : y ∉ rest2 := by
        rw [List.nodup_cons] at hd3
        exact hd3.1
      have hxq : (σ x).next ≠ x := by rw [hxy]; exact Ne.symm hxy2
      show links _ (h :: y :: rest2 ++ [h])
      refine links_cons_cons.mpr ⟨?_, ?_, ?_⟩
      · have := del_next_p σ hxq
        rw [hpx] at this
        rw [this, hxy]
      · have := del_prev_q σ hxq
        rw [hxy] at this
        rw [this, hpx]
      · refine links_agree (y :: rest2 ++ [h]) ?_ ?_ hrest2
        · intro z hz
          rw [show (y :: rest2 ++ [h]).dropLast = y :: rest2 from
            List.dropLast_concat ..] at hz
          refine del_next_other σ hxq ?_
          rw [hpx]
          rintro rfl
          rcases List.mem_cons.mp hz with e | e
          · exact hhy e
          · exact hhrest2 e
        · intro z hz
          simp only [List.tail_cons] at hz
          refine del_prev_other σ hxq ?_
          rw [hxy]
          rintro rfl
          rcases List.mem_append.mp hz with e | e
          · exact hyrest2 e
          · exact hhy (List.mem_singleton.mp e).symm
  · cases rest with
    | nil => simp
    | cons y rest2 =>
      rw [List.nodup_cons]
      refine ⟨?_, ?_⟩
      · exact fun e => hh1 (List.mem_cons_of_mem x e)
      · rw [List.nodup_cons] at hd2
        exact hd2.2

/-- `cc_list_append_list_` moves all entries of `frm` to the end of
`toh` and leaves `frm` empty, for disjoint well-formed lists. -/
theorem repr_append_list {σ : Heap} {toh frm : Nat} {xs ys : List Nat}
    (hr1 : repr σ toh xs) (hr2 : repr σ frm ys)
    (hdisj : ∀ z ∈ toh :: xs, z ∉ frm :: ys) :
    repr (cc_list_append_list_ σ toh frm) toh (xs ++ ys) ∧
    repr (cc_list_append_list_ σ toh frm) frm [] := by
  obtain ⟨hl1, hd1⟩ := hr1
  obtain ⟨hl2, hd2⟩ := hr2
  have hne1 : toh :: xs ≠ [] := List.cons_ne_nil toh xs
  have hne2 : frm :: ys ≠ [] := List.cons_ne_nil frm ys
  have htt : (σ toh).prev = (toh :: xs).getLast hne1 := links_prev_last toh xs toh hl1
  have hft : (σ frm).prev = (frm :: ys).getLast hne2 := links_prev_last frm ys frm hl2
  set tt := (toh :: xs).getLast hne1 with htt_def
  set ft := (frm :: ys).getLast hne2 with hft_def
  have htt_mem : tt ∈ toh :: xs := List.getLast_mem hne1
  have hft_mem : ft ∈ frm :: ys := List.getLast_mem hne2
  have htoh_nmem : toh ∉ frm :: ys := hdisj toh (List.mem_cons_self ..)
  have hfrm_nmem : frm ∉ toh :: xs := fun e => hdisj frm e (List.mem_cons_self ..)
  have htoh_frm : toh ≠ frm := fun e => htoh_nmem (e ▸ List.mem_cons_self ..)
  have htt_nmem : tt ∉ frm :: ys := hdisj tt htt_mem
  have hft_nmem : ft ∉ toh :: xs := fun e => hdisj ft e hft_mem
  have htt_frm : tt ≠ frm := fun e => htt_nmem (e ▸ List.mem_cons_self ..)
  have hft_toh : ft ≠ toh := fun e => hft_nmem (e ▸ List.mem_cons_self ..)
  have hft_tt : ft ≠ tt := fun e => htt_nmem (e ▸ hft_mem)
  -- the heap after the four sewing writes, before the deletion of frm
  set σ4 := setPrev (setNext (setNext (setPrev σ toh ((σ frm).prev))
    ((σ frm).prev) toh) ((σ toh).prev) frm) frm ((σ toh).prev) with hσ4_def
  have hunfold : cc_list_append_list_ σ toh frm =
      cc_list_head_init (cc_list_del_ σ4 frm) frm := rfl
  -- pointwise reads through σ4
  have A_prev_toh : (σ4 toh).prev = ft := by
    rw [hσ4_def, htt, hft, setPrev_other _ _ _ htoh_frm, setNext_prev,
      setNext_prev, setPrev_prev_same]
  have A_prev_frm : (σ4 frm).prev = tt := by
    rw [hσ4_def, htt, setPrev_prev_same]
  have A_next_ft : (σ4 ft).next = toh := by
    rw [hσ4_def, htt, hft, setPrev_next, setNext_other _ _ _ hft_tt,
      setNext_next_same]
  have A_next_tt : (σ4 tt).next = frm := by
    rw [hσ4_def, htt, setPrev_next, setNext_next_same]
  have A_next_other : ∀ z : Nat, z ≠ ft → z ≠ tt → (σ4 z).next = (σ z).next := by
    intro z hz1 hz2
    rw [hσ4_def, htt, hft, setPrev_next, setNext_other _ _ _ hz2,
      setNext_other _ _ _ hz1, setPrev_next]
  have A_prev_other : ∀ z : Nat, z ≠ toh → z ≠ frm → (σ4 z).prev = (σ z).prev := by
    intro z hz1 hz2
    rw [hσ4_def, setPrev_other _ _ _ hz2, setNext_prev, setNext_prev,
      setPrev_other _ _ _ hz1]
  -- nodup consequences
  have hD1 : (toh :: xs).dropLast ++ [tt] = toh :: xs :=
    List.dropLast_append_getLast hne1
  have hD2 : (frm :: ys).dropLast ++ [ft] = frm :: ys :=
    List.dropLast_append_getLast hne2
  have hD1_sub : ∀ z ∈ (toh :: xs).dropLast, z ∈ toh :: xs :=
    fun z hz => List.dropLast_subset _ hz
  have hD2_sub : ∀ z ∈ (frm :: ys).dropLast, z ∈ frm :: ys :=
    fun z hz => List.dropLast_subset _ hz
  have htt_ndrop : tt ∉ (toh :: xs).dropLast := by
    intro hmem
    have h0 : ((toh :: xs).dropLast ++ [tt]).Nodup := by rw [hD1]; exact hd1
    rw [List.nodup_append] at h0
    exact h0.2.2 hmem (List.mem_singleton_self tt)
  have hft_ndrop : ft ∉ (frm :: ys).dropLast := by
    intro hmem
    have h0 : ((frm :: ys).dropLast ++ [ft]).Nodup := by rw [hD2]; exact hd2
    rw [List.nodup_append] at h0
    exact h0.2.2 hmem (List.mem_singleton_self ft)
  have htoh_xs : toh ∉ xs := (List.nodup_cons.mp hd1).1
  have hfrm_ys : frm ∉ ys := (List.nodup_cons.mp hd2).1
  have hne_frm1 : ∀ z ∈ toh :: xs, z ≠ frm :=
    fun z hz e => hdisj z hz (e ▸ List.mem_cons_self ..)
  have hne_frm2 : ∀ z ∈ ys, z ≠ frm :=
    fun z hz e => hfrm_ys (e ▸ hz)
  -- links in σ4
  have hB1 : links σ (toh :: xs) := by
    have h0 := (links_split ((toh :: xs).dropLast) tt [toh]).mp
      (by rw [show (toh :: xs).dropLast ++ tt :: [toh] =
        ((toh :: xs).dropLast ++ [tt]) ++ [toh] by simp, hD1]; exact hl1)
    have := h0.1
    rwa [hD1] at this
  have hB2 : links σ (frm :: ys) := by
    have h0 := (links_split ((frm :: ys).dropLast) ft [frm]).mp
      (by rw [show (frm :: ys).dropLast ++ ft :: [frm] =
        ((frm :: ys).dropLast ++ [ft]) ++ [frm] by simp, hD2]; exact hl2)
    have := h0.1
    rwa [hD2] at this
  have C1 : links σ4 (toh :: xs) := by
    refine links_agree (toh :: xs) ?_ ?_ hB1
    · intro z hz
      exact A_next_other z (fun e => hft_nmem (e ▸ hD1_sub z hz)) (fun e => htt_ndrop (e ▸ hz))
    · intro z hz
      simp only [List.tail_cons] at hz
      exact A_prev_other z (fun e => htoh_xs (e ▸ hz))
        (hne_frm1 z (List.mem_cons_of_mem _ hz))
  have C2 : links σ4 (frm :: ys) := by
    refine links_agree (frm :: ys) ?_ ?_ hB2
    · intro z hz
      exact A_next_other z (fun e => hft_ndrop (e ▸ hz))
        (fun e => htt_nmem (e ▸ hD2_sub z hz))
    · intro z hz
      simp only [List.tail_cons] at hz
      refine A_prev_other z ?_ (fun e => hfrm_ys (e ▸ hz))
      intro e
      exact htoh_nmem (e ▸ List.mem_cons_of_mem _ hz)
  have C3 : links σ4 (tt :: [frm]) :=
    links_cons_cons.mpr ⟨A_next_tt, A_prev_frm, trivial⟩
  have C4 : links σ4 (ft :: [toh]) :=
    links_cons_cons.mpr ⟨A_next_ft, A_prev_toh, trivial⟩
  -- deletion of the frm head from the sewn cycle
  set σ5 := cc_list_del_ σ4 frm with hσ5_def
  have hσ6_other : ∀ z : Nat, z ≠ frm → cc_list_head_init σ5 frm z = σ5 z := by
    intro z hz
    simp only [cc_list_head_init]
    exact hset_other _ _ _ hz
  have hfinal_frame : ∀ l : List Nat, (∀ z ∈ l, z ≠ frm) → links σ5 l →
      links (cc_list_head_init σ5 frm) l := by
    intro l hz hl0
    refine links_agree l ?_ ?_ hl0
    · intro z hz2
      rw [hσ6_other z (hz z (List.dropLast_subset _ hz2))]
    · intro z hz2
      rw [hσ6_other z (hz z (List.mem_of_mem_tail hz2))]
  have hfrm_repr : repr (cc_list_head_init σ5 frm) frm [] := by
    constructor
    · show links _ (frm :: [] ++ [frm])
      refine links_cons_cons.mpr ⟨?_, ?_, trivial⟩
      · show (cc_list_head_init σ5 frm frm).next = frm
        simp [cc_list_head_init, hset_same]
      · show (cc_list_head_init σ5 frm frm).prev = frm
        simp [cc_list_head_init, hset_same]
    · simp
  have hnodup_goal : (toh :: (xs ++ ys)).Nodup := by
    rw [List.nodup_cons]
    constructor
    · rw [List.mem_append]
      rintro (e | e)
      · exact htoh_xs e
      · exact htoh_nmem (List.mem_cons_of_mem _ e)
    · rw [List.nodup_append]
      refine ⟨(List.nodup_cons.mp hd1).2, (List.nodup_cons.mp hd2).2, ?_⟩
      intro z hz hz2
      exact hdisj z (List.mem_cons_of_mem _ hz) (List.mem_cons_of_mem _ hz2)
  rw [hunfold]
  refine ⟨⟨?_, hnodup_goal⟩, hfrm_repr⟩
  cases ys with
  | nil =>
    have hft_frm : ft = frm := by rw [hft_def]; rfl
    have hq : (σ4 frm).next = toh := by rw [← hft_frm]; exact A_next_ft
    have hxq : (σ4 frm).next ≠ frm := by rw [hq]; exact htoh_frm
    have hd_next_tt : (σ5 tt).next = toh := by
      have := del_next_p σ4 hxq
      rwa [A_prev_frm, hq] at this
    have hd_prev_toh : (σ5 toh).prev = tt := by
      have := del_prev_q σ4 hxq
      rwa [A_prev_frm, hq] at this
    have G1 : links σ5 (toh :: xs) := by
      refine links_agree (toh :: xs) ?_ ?_ C1
      · intro z hz
        refine del_next_other σ4 hxq ?_
        rw [A_prev_frm]
        exact fun e => htt_ndrop (e ▸ hz)
      · intro z hz
        simp only [List.tail_cons] at hz
        refine del_prev_other σ4 hxq ?_
        rw [hq]
        exact fun e => htoh_xs (e ▸ hz)
    have G2 : links σ5 ((toh :: xs) ++ [toh]) := by
      have h0 := (links_split ((toh :: xs).dropLast) tt [toh]).mpr
        ⟨by rw [hD1]; exact G1,
         links_cons_cons.mpr ⟨hd_next_tt, hd_prev_toh, trivial⟩⟩
      rwa [show (toh :: xs).dropLast ++ tt :: [toh] =
        ((toh :: xs).dropLast ++ [tt]) ++ [toh] by simp, hD1] at h0
    show links _ (toh :: (xs ++ []) ++ [toh])
    rw [List.append_nil]
    refine hfinal_frame _ ?_ G2
    intro z hz
    rcases List.mem_append.mp hz with e | e
    · exact hne_frm1 z e
    · rw [List.mem_singleton.mp e]
      exact htoh_frm
  | cons y ys2 =>
    have hftc : ft = (y :: ys2).getLast (List.cons_ne_nil y ys2) := by
      rw [hft_def]
      exact List.getLast_cons (List.cons_ne_nil y ys2)
    have hft_mem_ys : ft ∈ y :: ys2 := by
      rw [hftc]
      exact List.getLast_mem _
    have hfrm_ft : frm ≠ ft := fun e => hfrm_ys (e ▸ hft_mem_ys)
    have hfy : (σ frm).next = y := links_next_head hl2
    have hq : (σ4 frm).next = y := by
      rw [A_next_other frm hfrm_ft (Ne.symm htt_frm), hfy]
    have hfrm_y : frm ≠ y := fun e => hfrm_ys (e ▸ List.mem_cons_self ..)
    have hxq : (σ4 frm).next ≠ frm := by rw [hq]; exact Ne.symm hfrm_y
    have hy_toh : y ≠ toh :=
      fun e => htoh_nmem (e ▸ List.mem_cons_of_mem _ (List.mem_cons_self ..))
    have hy_tt : y ≠ tt :=
      fun e => htt_nmem (e ▸ List.mem_cons_of_mem _ (List.mem_cons_self ..))
    have hy_ys2 : y ∉ ys2 := by
      have := (List.nodup_cons.mp hd2).2
      exact (List.nodup_cons.mp this).1
    have hd_next_tt : (σ5 tt).next = y := by
      have := del_next_p σ4 hxq
      rwa [A_prev_frm, hq] at this
    have hd_prev_y : (σ5 y).prev = tt := by
      have := del_prev_q σ4 hxq
      rwa [A_prev_frm, hq] at this
    have G1 : links σ5 (toh :: xs) := by
      refine links_agree (toh :: xs) ?_ ?_ C1
      · intro z hz
        refine del_next_other σ4 hxq ?_
        rw [A_prev_frm]
        exact fun e => htt_ndrop (e ▸ hz)
      · intro z hz
        simp only [List.tail_cons] at hz
        refine del_prev_other σ4 hxq ?_
        rw [hq]
        intro e
        exact hdisj y (e ▸ List.mem_cons_of_mem _ hz)
          (List.mem_cons_of_mem _ (List.mem_cons_self ..))
    have hDy : (y :: ys2).dropLast ++ [ft] = y :: ys2 := by
      rw [hftc]
      exact List.dropLast_append_getLast _
    have Gmid : links σ4 ((y :: ys2) ++ [toh]) := by
      have hys : links σ4 (y :: ys2) := links_tail C2
      have h0 := (links_split ((y :: ys2).dropLast) ft [toh]).mpr
        ⟨by rw [hDy]; exact hys, C4⟩
      rwa [show (y :: ys2).dropLast ++ ft :: [toh] =
        ((y :: ys2).dropLast ++ [ft]) ++ [toh] by simp, hDy] at h0
    have G3 : links σ5 ((y :: ys2) ++ [toh]) := by
      refine links_agree ((y :: ys2) ++ [toh]) ?_ ?_ Gmid
      · intro z hz
        rw [show ((y :: ys2) ++ [toh]).dropLast = y :: ys2 from
          List.dropLast_concat ..] at hz
        refine del_next_other σ4 hxq ?_
        rw [A_prev_frm]
        exact fun e => htt_nmem (e ▸ List.mem_cons_of_mem _ hz)
      · intro z hz
        simp only [List.cons_append, List.tail_cons] at hz
        refine del_prev_other σ4 hxq ?_
        rw [hq]
        rintro rfl
        rcases List.mem_append.mp hz with e | e
        · exact hy_ys2 e
        · exact hy_toh (List.mem_singleton.mp e)
    have G4 : links σ5 ((toh :: xs) ++ [y]) := by
      have h0 := (links_split ((toh :: xs).dropLast) tt [y]).mpr
        ⟨by rw [hD1]; exact G1,
         links_cons_cons.mpr ⟨hd_next_tt, hd_prev_y, trivial⟩⟩
      rwa [show (toh :: xs).dropLast ++ tt :: [y] =
        ((toh :: xs).dropLast ++ [tt]) ++ [y] by simp, hD1] at h0
    have G5 : links σ5 ((toh :: xs) ++ y :: (ys2 ++ [toh])) :=
      (links_split (toh :: xs) y (ys2 ++ [toh])).mpr ⟨G4, by simpa using G3⟩
    show links _ (toh :: (xs ++ y :: ys2) ++ [toh])
    have e1 : toh :: (xs ++ y :: ys2) ++ [toh] =
        (toh :: xs) ++ y :: (ys2 ++ [toh]) := by simp
    rw [e1]
    refine hfinal_frame _ ?_ G5
    intro z hz
    rcases List.mem_append.mp hz with e | e
    · exact hne_frm1 z e
    · rcases List.mem_cons.mp e with e2 | e2
      · rw [e2]; exact Ne.symm hfrm_y
      · rcases List.mem_append.mp e2 with e3 | e3
        · exact hne_frm2 z (List.mem_cons_of_mem _ e3)
        · rw [List.mem_singleton.mp e3]
          exact htoh_frm

/-- A concrete heap holding the well-formed cyclic list with head 0 and
single entry 1 (used to witness the list theorems). -/
def heapW : Heap := fun a =>
  if a = 0 then { next := 1, prev := 1 }
  else if a = 1 then { next := 0, prev := 0 }
  else { next := a, prev := a }

theorem heapW_repr : repr heapW 0 [1] :=
  ⟨links_cons_cons.mpr ⟨rfl, rfl, links_cons_cons.mpr ⟨rfl, rfl, trivial⟩⟩,
   by decide⟩

/-- A concrete heap holding two disjoint one-entry lists: head 0 with
entry 1 and head 2 with entry 3. -/
def heapW2 : Heap := fun a =>
  if a = 0 then { next := 1, prev := 1 }
  else if a = 1 then { next := 0, prev := 0 }
  else if a = 2 then { next := 3, prev := 3 }
  else if a = 3 then { next := 2, prev := 2 }
  else { next := a, prev := a }

theorem heapW2_repr0 : repr heapW2 0 [1] :=
  ⟨links_cons_cons.mpr ⟨rfl, rfl, links_cons_cons.mpr ⟨rfl, rfl, trivial⟩⟩,
   by decide⟩

theorem heapW2_repr2 : repr heapW2 2 [3] :=
  ⟨links_cons_cons.mpr ⟨rfl, rfl, links_cons_cons.mpr ⟨rfl, rfl, trivial⟩⟩,
   by decide⟩

/-- C8: for every well-formed list `h` and fresh node `n`, after
`cc_list_add_(h, n)` the list is non-empty, `cc_list_top_` returns `n`,
and the previous elements follow `n` in their former order; after
`cc_list_add_tail_(h, n)`, `cc_list_tail_` returns `n` and the previous
elements precede it unchanged. -/
theorem claim_C8 (σ : Heap) (h n : Nat) (xs : List Nat)
    (hr : repr σ h xs) (hn : n ∉ h :: xs) :
    cc_list_empty_ (cc_list_add_ σ h n) h = false ∧
    cc_list_top_ (cc_list_add_ σ h n) h = some n ∧
    repr (cc_list_add_ σ h n) h (n :: xs) ∧
    cc_list_tail_ (cc_list_add_tail_ σ h n) h = some n ∧
    repr (cc_list_add_tail_ σ h n) h (xs ++ [n]) := by
  have h1 := repr_add hr hn
  have h2 := repr_add_tail hr hn
  have hne1 : cc_list_empty_ (cc_list_add_ σ h n) h = false := by
    rcases hB : cc_list_empty_ (cc_list_add_ σ h n) h with _ | _
    · rfl
    · exact absurd ((repr_empty_iff h1).mp hB) (List.cons_ne_nil n xs)
  have hne2 : cc_list_empty_ (cc_list_add_tail_ σ h n) h = false := by
    rcases hB : cc_list_empty_ (cc_list_add_tail_ σ h n) h with _ | _
    · rfl
    · exact absurd ((repr_empty_iff h2).mp hB) (by simp)
  refine ⟨hne1, ?_, h1, ?_, h2⟩
  · rw [cc_list_top_, hne1]
    simp [add_next_head]
  · rw [cc_list_tail_, hne2]
    simp [addtail_prev_head]

/-- Witness for C8 on the concrete one-entry list `heapW`. -/
theorem claim_C8_witness :
    cc_list_empty_ (cc_list_add_ heapW 0 2) 0 = false ∧
    cc_list_top_ (cc_list_add_ heapW 0 2) 0 = some 2 ∧
    repr (cc_list_add_ heapW 0 2) 0 (2 :: [1]) ∧
    cc_list_tail_ (cc_list_add_tail_ heapW 0 2) 0 = some 2 ∧
    repr (cc_list_add_tail_ heapW 0 2) 0 ([1] ++ [2]) :=
  claim_C8 heapW 0 2 [1] heapW_repr (by decide)

/-- C9: `cc_list_pop_` returns `NULL` exactly on an empty list; on a
non-empty well-formed list it returns the first entry and removes
exactly it, and popping right after `cc_list_add_` returns the added
node and restores the previous list. -/
theorem claim_C9 (σ : Heap) (h n : Nat) (xs : List Nat)
    (hr : repr σ h xs) (hn : n ∉ h :: xs) :
    ((cc_list_pop_ σ h).1 = none ↔ cc_list_empty_ σ h = true) ∧
    (∀ x rest, xs = x :: rest →
      (cc_list_pop_ σ h).1 = some x ∧ repr (cc_list_pop_ σ h).2 h rest) ∧
    (cc_list_pop_ (cc_list_add_ σ h n) h).1 = some n ∧
    repr (cc_list_pop_ (cc_list_add_ σ h n) h).2 h xs := by
  refine ⟨?_, ?_, ?_⟩
  · by_cases he : cc_list_empty_ σ h <;> simp [cc_list_pop_, he]
  · rintro x rest rfl
    exact repr_pop hr
  · exact repr_pop (repr_add hr hn)

/-- Witness for C9 on the concrete one-entry list `heapW`. -/
theorem claim_C9_witness :
    ((cc_list_pop_ heapW 0).1 = none ↔ cc_list_empty_ heapW 0 = true) ∧
    (∀ x rest, [1] = x :: rest →
      (cc_list_pop_ heapW 0).1 = some x ∧
      repr (cc_list_pop_ heapW 0).2 0 rest) ∧
    (cc_list_pop_ (cc_list_add_ heapW 0 2) 0).1 = some 2 ∧
    repr (cc_list_pop_ (cc_list_add_ heapW 0 2) 0).2 0 [1] :=
  claim_C9 heapW 0 2 [1] heapW_repr (by decide)

/-- C10: `cc_list_append_list_(to, from)` leaves `to` holding its former
elements followed by the former elements of `from`, in order, and `from`
empty. -/
theorem claim_C10 (σ : Heap) (toh frm : Nat) (xs ys : List Nat)
    (hr1 : repr σ toh xs) (hr2 : repr σ frm ys)
    (hdisj : ∀ z ∈ toh :: xs, z ∉ frm :: ys) :
    repr (cc_list_append_list_ σ toh frm) toh (xs ++ ys) ∧
    cc_list_empty_ (cc_list_append_list_ σ toh frm) frm = true := by
  obtain ⟨h1, h2⟩ := repr_append_list hr1 hr2 hdisj
  exact ⟨h1, (repr_empty_iff h2).mpr rfl⟩

/-- Witness for C10 on the concrete disjoint lists of `heapW2`. -/
theorem claim_C10_witness :
    repr (cc_list_append_list_ heapW2 0 2) 0 ([1] ++ [3]) ∧
    cc_list_empty_ (cc_list_append_list_ heapW2 0 2) 2 = true :=
  claim_C10 heapW2 0 2 [1] [3] heapW2_repr0 heapW2_repr2 (by decide)

end CCList

namespace Node

/-- Modelled from the spec: the decoded packet summary consumed by the
update protocol (§4.2).  `node.c` with `node_update`/`node_timeout` is
not part of the sources, so the packet summary, the node record
mutation and the sweep are modelled from the specification.  Each
optional field is independently markable present/absent; the capture
timestamp is in whole seconds; hardware addresses are abstract
numbers. -/
structure packet_info where
  wlan_src : Nat
  pkt_time : Nat
  pkt_type : Nat
  wlan_bssid : Option Nat
  wlan_essid : Option String
  wlan_channel : Option Nat
  phy_signal : Option Int
  wlan_tsf : Option Nat
  wlan_bintval : Option Nat
  wlan_retries : Option Nat
  wlan_seqno : Option Nat
  wlan_chan_width : Option Nat
  ip_src : Option Nat
deriving DecidableEq

/-- The node record, following `struct node_info` of `src/core/node.h`.
Fields whose value is learned only when a frame reveals them are
`Option`-typed ("unknown" is `none`); the basestation back-reference is
stored as an address handle, as the spec's design notes prescribe
(§9). -/
structure node_info where
  last_seen : Nat
  pkt_types : Nat
  pkt_count : Nat
  phy_sig_max : Int
  phy_sig_avg : ℚ
  phy_sig_sum : Int
  phy_sig_count : Nat
  wlan_src : Nat
  wlan_bssid : Option Nat
  wlan_channel : Option Nat
  essid : Option String
  wlan_ap_node : Option Nat
  on_channels : List (Nat × Nat)
  num_on_channels : Nat
  wlan_tsf : Option Nat
  wlan_bintval : Option Nat
  wlan_retries_all : Nat
  wlan_retries_last : Option Nat
  wlan_seqno : Option Nat
  wlan_chan_width : Option Nat
  ip_src : Option Nat
  last_pkt : Option packet_info
deriving DecidableEq

/-- Modelled from the spec: `resolveOrCreate` allocates a
zero-initialized record for a fresh address (§4.1). -/
def node_create (addr : Nat) : node_info :=
  { last_seen := 0
    pkt_types := 0
    pkt_count := 0
    phy_sig_max := 0
    phy_sig_avg := 0
    phy_sig_sum := 0
    phy_sig_count := 0
    wlan_src := addr
    wlan_bssid := none
    wlan_channel := none
    essid := none
    wlan_ap_node := none
    on_channels := []
    num_on_channels := 0
    wlan_tsf := none
    wlan_bintval := none
    wlan_retries_all := 0
    wlan_retries_last := none
    wlan_seqno := none
    wlan_chan_width := none
    ip_src := none
    last_pkt := none }

/-- Modelled from the spec: the channel-occupancy tracker's
`observe(node, channel)` — find-or-create the per-(node,channel) record
and increment its count (§4.4). -/
def channel_observe (c : Nat) (l : List (Nat × Nat)) : List (Nat × Nat) :=
  if l.any (fun e => e.1 = c) then
    l.map (fun e => if e.1 = c then (e.1, e.2 + 1) else e)
  else l ++ [(c, 1)]

/-- The observation count recorded for channel `c`. -/
def chan_count : List (Nat × Nat) → Nat → Nat
  | [], _ => 0
  | e :: l, c => if e.1 = c then e.2 else chan_count l c

/-- Modelled from the spec: one application of a packet summary to its
resolved node record (§4.2 steps 2–8 and §4.3): unconditional fields
(last-seen, packet count, category bitmask, snapshot) are always
written; every optional field is applied only when the packet carries
it; the signal aggregator updates max/sum/count and the fixed-weight
(`w`) exponential average, initialized by the first sample; the channel
tracker accumulates `(channel, count)` records. -/
def node_apply (w : ℚ) (p : packet_info) (n : node_info) : node_info :=
  { last_seen := p.pkt_time
    pkt_types := n.pkt_types ||| p.pkt_type
    pkt_count := n.pkt_count + 1
    phy_sig_max :=
      match p.phy_signal with
      | none => n.phy_sig_max
      | some s => if n.phy_sig_count = 0 ∨ n.phy_sig_max < s then s
                  else n.phy_sig_max
    phy_sig_avg :=
      match p.phy_signal with
      | none => n.phy_sig_avg
      | some s => if n.phy_sig_count = 0 then (s : ℚ)
                  else n.phy_sig_avg + w * ((s : ℚ) - n.phy_sig_avg)
    phy_sig_sum :=
      match p.phy_signal with
      | none => n.phy_sig_sum
      | some s => n.phy_sig_sum + s
    phy_sig_count :=
      match p.phy_signal with
      | none => n.phy_sig_count
      | some _ => n.phy_sig_count + 1
    wlan_src := n.wlan_src
    wlan_bssid :=
      match p.wlan_bssid with
      | none => n.wlan_bssid
      | some b => some b
    wlan_channel :=
      match p.wlan_channel with
      | none => n.wlan_channel
      | some c => some c
    essid :=
      match p.wlan_essid with
      | none => n.essid
      | some e => some e
    wlan_ap_node :=
      match p.wlan_bssid with
      | none => n.wlan_ap_node
      | some b => if b = p.wlan_src then n.wlan_ap_node else some b
    on_channels :=
      match p.wlan_channel with
      | none => n.on_channels
      | some c => channel_observe c n.on_channels
    num_on_channels :=
      (match p.wlan_channel with
       | none => n.on_channels
       | some c => channel_observe c n.on_channels).length
    wlan_tsf :=
      match p.wlan_tsf with
      | none => n.wlan_tsf
      | some t => some t
    wlan_bintval :=
      match p.wlan_bintval with
      | none => n.wlan_bintval
      | some v => some v
    wlan_retries_all := n.wlan_retries_all + p.wlan_retries.getD 0
    wlan_retries_last :=
      match p.wlan_retries with
      | none => n.wlan_retries_last
      | some r => some r
    wlan_seqno :=
      match p.wlan_seqno with
      | none => n.wlan_seqno
      | some q => some q
    wlan_chan_width :=
      match p.wlan_chan_width with
      | none => n.wlan_chan_width
      | some cw => some cw
    ip_src :=
      match p.ip_src with
      | none => n.ip_src
      | some i => some i
    last_pkt := some p }

/-- Lookup by source address (first match). -/
def node_find : List node_info → Nat → Option node_info
  | [], _ => none
  | n :: ns, a => if n.wlan_src = a then some n else node_find ns a

/-- Is some record with source address `a` present? -/
def node_mem : List node_info → Nat → Bool
  | [], _ => false
  | n :: ns, a => n.wlan_src = a || node_mem ns a

/-- Modelled from the spec: `node_update` (declared in
`src/core/node.h:83`, implementation not in the sources) — resolve or
create the record for the packet's source address, apply the packet
under the field-presence rules, and if the packet reveals a basestation
address distinct from the node's own address, resolve it in the
registry, creating a placeholder node if not yet seen (§4.2). -/
def node_update (w : ℚ) (p : packet_info) (nodes : List node_info) :
    List node_info :=
  let nodes1 := if node_mem nodes p.wlan_src then nodes
                else nodes ++ [node_create p.wlan_src]
  let nodes2 := nodes1.map
    (fun n => if n.wlan_src = p.wlan_src then node_apply w p n else n)
  match p.wlan_bssid with
  | none => nodes2
  | some b =>
    if b = p.wlan_src then nodes2
    else if node_mem nodes2 b then nodes2
    else nodes2 ++ [node_create b]

/-- Modelled from the spec: `node_timeout` (declared in
`src/core/node.h:84`, implementation not in the sources) — remove every
node whose last-seen is older than `now - timeout_sec` (its owned
channel records and group membership go with the record), and
invalidate any remaining node's basestation back-reference that points
at a removed node (§4.1). -/
def node_timeout (nodes : List node_info) (now timeout_sec : Nat) :
    List node_info :=
  let kept := nodes.filter (fun n => decide (now - timeout_sec ≤ n.last_seen))
  kept.map (fun n =>
    if n.wlan_ap_node.all (fun a => node_mem kept a) then n
    else { n with wlan_ap_node := none })

theorem node_apply_src (w : ℚ) (p : packet_info) (n : node_info) :
    (node_apply w p n).wlan_src = n.wlan_src := rfl

theorem node_create_src (a : Nat) : (node_create a).wlan_src = a := rfl

theorem node_find_isSome (ns : List node_info) (a : Nat) :
    (node_find ns a).isSome = node_mem ns a := by
  induction ns with
  | nil => rfl
  | cons n ns ih =>
    by_cases h : n.wlan_src = a <;> simp [node_find, node_mem, h, ih]

theorem node_find_none_iff (ns : List node_info) (a : Nat) :
    node_find ns a = none ↔ node_mem ns a = false := by
  rw [← Option.not_isSome_iff_eq_none, node_find_isSome]
  simp

theorem node_find_src {ns : List node_info} {a : Nat} {n : node_info}
    (h : node_find ns a = some n) : n.wlan_src = a := by
  induction ns with
  | nil => exact absurd h (by simp [node_find])
  | cons m ns ih =>
    by_cases hm : m.wlan_src = a
    · rw [node_find, if_pos hm] at h
      rw [← Option.some.injEq] at h  -- h : some m = some n
      cases h
      exact hm
    · rw [node_find, if_neg hm] at h
      exact ih h

theorem node_find_append (l1 l2 : List node_info) (a : Nat) :
    node_find (l1 ++ l2) a =
      match node_find l1 a with
      | some n => some n
      | none => node_find l2 a := by
  induction l1 with
  | nil => simp [node_find]
  | cons n l1 ih =>
    by_cases h : n.wlan_src = a <;> simp [node_find, h, ih]

theorem node_find_map_update (g : node_info → node_info)
    (hg : ∀ n, (g n).wlan_src = n.wlan_src) (ns : List node_info) (s a : Nat) :
    node_find (ns.map (fun n => if n.wlan_src = s then g n else n)) a =
      (node_find ns a).map (fun n => if n.wlan_src = s then g n else n) := by
  induction ns with
  | nil => simp [node_find]
  | cons n ns ih =>
    have hsrc : (if n.wlan_src = s then g n else n).wlan_src = n.wlan_src := by
      by_cases hs : n.wlan_src = s
      · rw [if_pos hs, hg]
      · rw [if_neg hs]
    by_cases h : n.wlan_src = a
    · rw [List.map_cons, node_find, if_pos (by rw [hsrc]; exact h),
        node_find, if_pos h, Option.map_some']
    · rw [List.map_cons, node_find, if_neg (by rw [hsrc]; exact h),
        node_find, if_neg h, ih]

theorem node_mem_find (ns : List node_info) (a : Nat) (h : node_mem ns a) :
    ∃ n, node_find ns a = some n := by
  have := node_find_isSome ns a
  rw [h] at this
  exact Option.isSome_iff_exists.mp this

/-- Lookup after the resolve-or-create and field-application stages of
the update. -/
theorem node_find_stage2 (w : ℚ) (p : packet_info) (ns : List node_info)
    (a : Nat) :
    node_find ((if node_mem ns p.wlan_src then ns
        else ns ++ [node_create p.wlan_src]).map
      (fun n => if n.wlan_src = p.wlan_src then node_apply w p n else n)) a =
      if a = p.wlan_src then
        some (node_apply w p ((node_find ns a).getD (node_create a)))
      else node_find ns a := by
  rw [node_find_map_update (node_apply w p) (node_apply_src w p)]
  by_cases hmem : node_mem ns p.wlan_src
  · rw [if_pos hmem]
    by_cases ha : a = p.wlan_src
    · rw [if_pos ha]
      obtain ⟨n0, hn0⟩ := node_mem_find ns p.wlan_src hmem
      have hn0a : node_find ns a = some n0 := by rw [ha]; exact hn0
      have hsrc0 : n0.wlan_src = p.wlan_src := node_find_src hn0
      rw [hn0a]
      simp only [Option.map_some', Option.getD_some]
      rw [if_pos hsrc0]
    · rw [if_neg ha]
      cases hf : node_find ns a with
      | none => simp only [Option.map_none']
      | some n0 =>
        have hsrc0 : n0.wlan_src = a := node_find_src hf
        simp only [Option.map_some']
        rw [if_neg (by rw [hsrc0]; exact ha)]
  · rw [if_neg hmem, node_find_append]
    have hf : node_find ns p.wlan_src = none := (node_find_none_iff ns _).mpr
      (by rwa [Bool.not_eq_true] at hmem)
    by_cases ha : a = p.wlan_src
    · rw [if_pos ha]
      have hfa : node_find ns a = none := by rw [ha]; exact hf
      rw [hfa]
      show (node_find [node_create p.wlan_src] a).map _ = _
      rw [node_find, if_pos (by rw [node_create_src, ha])]
      simp only [Option.map_some', Option.getD_none]
      rw [if_pos (node_create_src _), ha]
    · rw [if_neg ha]
      cases hfa : node_find ns a with
      | none =>
        show (node_find [node_create p.wlan_src] a).map _ = _
        rw [node_find, if_neg (by rw [node_create_src]; exact fun e => ha e.symm),
          node_find]
        simp only [Option.map_none']
      | some n0 =>
        have hsrc0 : n0.wlan_src = a := node_find_src hfa
        show (some n0).map _ = some n0
        simp only [Option.map_some']
        rw [if_neg (by rw [hsrc0]; exact ha)]

/-- Master lookup lemma for `node_update`: the packet's source record is
resolved (or created) and gets the packet applied; a fresh basestation
address gets a placeholder record; every other record is untouched. -/
theorem node_find_update (w : ℚ) (p : packet_info) (ns : List node_info)
    (a : Nat) :
    node_find (node_update w p ns) a =
      if a = p.wlan_src then
        some (node_apply w p ((node_find ns a).getD (node_create a)))
      else if p.wlan_bssid = some a ∧ node_find ns a = none then
        some (node_create a)
      else node_find ns a := by
  have hstage := node_find_stage2 w p ns a
  cases hb : p.wlan_bssid with
  | none =>
    simp only [node_update, hb]
    rw [hstage]
    by_cases ha : a = p.wlan_src
    · rw [if_pos ha, if_pos ha]
    · rw [if_neg ha, if_neg ha, if_neg (by simp)]
  | some b =>
    simp only [node_update, hb]
    by_cases hbsrc : b = p.wlan_src
    · rw [if_pos hbsrc, hstage]
      by_cases ha : a = p.wlan_src
      · rw [if_pos ha, if_pos ha]
      · rw [if_neg ha, if_neg ha, if_neg ?_]
        rintro ⟨e1, _⟩
        rw [Option.some.injEq] at e1
        exact ha (e1 ▸ hbsrc)
    · rw [if_neg hbsrc]
      by_cases hmem2 : node_mem ((if node_mem ns p.wlan_src then ns
          else ns ++ [node_create p.wlan_src]).map
        (fun n => if n.wlan_src = p.wlan_src then node_apply w p n else n)) b
      · rw [if_pos hmem2, hstage]
        by_cases ha : a = p.wlan_src
        · rw [if_pos ha, if_pos ha]
        · rw [if_neg ha, if_neg ha, if_neg ?_]
          rintro ⟨e1, e2⟩
          rw [Option.some.injEq] at e1
          subst e1
          obtain ⟨m, hm⟩ := node_mem_find _ b hmem2
          rw [node_find_stage2 w p ns b, if_neg ha, e2] at hm
          exact Option.noConfusion hm
      · rw [if_neg hmem2, node_find_append, hstage]
        by_cases ha : a = p.wlan_src
        · rw [if_pos ha]
          show (match some (node_apply w p ((node_find ns a).getD
            (node_create a))) with
            | some n => some n
            | none => node_find [node_create b] a) = _
          rw [if_pos ha]
        · rw [if_neg ha, if_neg ha]
          cases hf : node_find ns a with
          | some n0 =>
            rw [if_neg ?_]
            rintro ⟨_, e2⟩
            exact Option.noConfusion e2
          | none =>
            show node_find [node_create b] a = _
            by_cases hba : b = a
            · rw [node_find, if_pos (by rw [node_create_src]; exact hba),
                if_pos ⟨by rw [hba], rfl⟩, hba]
            · rw [node_find, if_neg (by rw [node_create_src]; exact hba),
                node_find, if_neg ?_]
              rintro ⟨e1, _⟩
              rw [Option.some.injEq] at e1
              exact hba e1

theorem node_find_mem {ns : List node_info} {a : Nat} {n : node_info}
    (h : node_find ns a = some n) : n ∈ ns := by
  induction ns with
  | nil => exact absurd h (by simp [node_find])
  | cons m ns ih =>
    by_cases hm : m.wlan_src = a
    · rw [node_find, if_pos hm, Option.some.injEq] at h
      exact h ▸ List.mem_cons_self m ns
    · rw [node_find, if_neg hm] at h
      exact List.mem_cons_of_mem m (ih h)

/-- C1: any field the incoming packet summary does not carry is left
unchanged by the update; in particular an absent network-name never
clears a previously learned one, and no learned field is reset to
unknown by an update lacking it. -/
theorem claim_C1 (w : ℚ) (p : packet_info) (ns : List node_info) (a : Nat)
    (n : node_info) (hf : node_find ns a = some n) :
    ∃ n2, node_find (node_update w p ns) a = some n2 ∧
      (p.wlan_essid = none → n2.essid = n.essid) ∧
      (n2.essid = none → n.essid = none) ∧
      (p.wlan_channel = none → n2.wlan_channel = n.wlan_channel) ∧
      (p.wlan_channel = none → n2.on_channels = n.on_channels) ∧
      (p.wlan_bssid = none → n2.wlan_bssid = n.wlan_bssid) ∧
      (p.wlan_bssid = none → n2.wlan_ap_node = n.wlan_ap_node) ∧
      (p.phy_signal = none → n2.phy_sig_max = n.phy_sig_max ∧
        n2.phy_sig_sum = n.phy_sig_sum ∧ n2.phy_sig_count = n.phy_sig_count ∧
        n2.phy_sig_avg = n.phy_sig_avg) ∧
      (p.wlan_tsf = none → n2.wlan_tsf = n.wlan_tsf) ∧
      (p.wlan_bintval = none → n2.wlan_bintval = n.wlan_bintval) ∧
      (p.wlan_seqno = none → n2.wlan_seqno = n.wlan_seqno) ∧
      (p.wlan_chan_width = none → n2.wlan_chan_width = n.wlan_chan_width) ∧
      (p.ip_src = none → n2.ip_src = n.ip_src) := by
  rw [node_find_update]
  by_cases ha : a = p.wlan_src
  · rw [if_pos ha, hf, Option.getD_some]
    refine ⟨node_apply w p n, rfl, ?_, ?_, ?_, ?_, ?_, ?_, ?_, ?_, ?_, ?_, ?_, ?_⟩
    · intro hp; simp [node_apply, hp]
    · intro h2
      cases he : p.wlan_essid with
      | none => rw [show (node_apply w p n).essid = n.essid by
          simp [node_apply, he]] at h2; exact h2
      | some e => rw [show (node_apply w p n).essid = some e by
          simp [node_apply, he]] at h2; exact Option.noConfusion h2
    · intro hp; simp [node_apply, hp]
    · intro hp; simp [node_apply, hp]
    · intro hp; simp [node_apply, hp]
    · intro hp; simp [node_apply, hp]
    · intro hp; simp [node_apply, hp]
    · intro hp; simp [node_apply, hp]
    · intro hp; simp [node_apply, hp]
    · intro hp; simp [node_apply, hp]
    · intro hp; simp [node_apply, hp]
    · intro hp; simp [node_apply, hp]
  · rw [if_neg ha]
    by_cases hcond : p.wlan_bssid = some a ∧ node_find ns a = none
    · exact Option.noConfusion (hf.symm.trans hcond.2)
    · rw [if_neg hcond, hf]
      exact ⟨n, rfl, fun _ => rfl, fun h => h, fun _ => rfl, fun _ => rfl,
        fun _ => rfl, fun _ => rfl, fun _ => ⟨rfl, rfl, rfl, rfl⟩,
        fun _ => rfl, fun _ => rfl, fun _ => rfl, fun _ => rfl, fun _ => rfl⟩

/-- A concrete packet summary carrying no optional field, for the
witnesses. -/
def packetW0 : packet_info :=
  { wlan_src := 5, pkt_time := 7, pkt_type := 1, wlan_bssid := none,
    wlan_essid := none, wlan_channel := none, phy_signal := none,
    wlan_tsf := none, wlan_bintval := none, wlan_retries := none,
    wlan_seqno := none, wlan_chan_width := none, ip_src := none }

/-- Witness for C1: a registry with one known node, updated by a packet
carrying nothing optional. -/
theorem claim_C1_witness :
    ∃ n2, node_find (node_update (1/2) packetW0 [node_create 5]) 5 = some n2 ∧
      (packetW0.wlan_essid = none → n2.essid = (node_create 5).essid) ∧
      (n2.essid = none → (node_create 5).essid = none) ∧
      (packetW0.wlan_channel = none →
        n2.wlan_channel = (node_create 5).wlan_channel) ∧
      (packetW0.wlan_channel = none →
        n2.on_channels = (node_create 5).on_channels) ∧
      (packetW0.wlan_bssid = none →
        n2.wlan_bssid = (node_create 5).wlan_bssid) ∧
      (packetW0.wlan_bssid = none →
        n2.wlan_ap_node = (node_create 5).wlan_ap_node) ∧
      (packetW0.phy_signal = none →
        n2.phy_sig_max = (node_create 5).phy_sig_max ∧
        n2.phy_sig_sum = (node_create 5).phy_sig_sum ∧
        n2.phy_sig_count = (node_create 5).phy_sig_count ∧
        n2.phy_sig_avg = (node_create 5).phy_sig_avg) ∧
      (packetW0.wlan_tsf = none → n2.wlan_tsf = (node_create 5).wlan_tsf) ∧
      (packetW0.wlan_bintval = none →
        n2.wlan_bintval = (node_create 5).wlan_bintval) ∧
      (packetW0.wlan_seqno = none →
        n2.wlan_seqno = (node_create 5).wlan_seqno) ∧
      (packetW0.wlan_chan_width = none →
        n2.wlan_chan_width = (node_create 5).wlan_chan_width) ∧
      (packetW0.ip_src = none → n2.ip_src = (node_create 5).ip_src) :=
  claim_C1 (1/2) packetW0 [node_create 5] 5 (node_create 5) (by
    rw [node_find, if_pos (node_create_src 5)])

/-- C4: applying `node_update` never decreases a node's last-seen
timestamp, under the spec's input contract that capture timestamps are
delivered monotonically (§6), i.e. the packet's capture time is at
least the record's current last-seen. -/
theorem claim_C4 (w : ℚ) (p : packet_info) (ns : List node_info) (a : Nat)
    (n n2 : node_info) (hcap : n.last_seen ≤ p.pkt_time)
    (hf : node_find ns a = some n)
    (hf2 : node_find (node_update w p ns) a = some n2) :
    n.last_seen ≤ n2.last_seen := by
  rw [node_find_update] at hf2
  by_cases ha : a = p.wlan_src
  · rw [if_pos ha, hf, Option.getD_some, Option.some.injEq] at hf2
    rw [← hf2]
    show n.last_seen ≤ (node_apply w p n).last_seen
    simpa [node_apply] using hcap
  · rw [if_neg ha] at hf2
    by_cases hcond : p.wlan_bssid = some a ∧ node_find ns a = none
    · exact Option.noConfusion (hf.symm.trans hcond.2)
    · rw [if_neg hcond, hf, Option.some.injEq] at hf2
      rw [← hf2]

/-- Witness for C4 on a concrete one-node registry. -/
theorem claim_C4_witness :
    (node_create 5).last_seen ≤ packetW0.pkt_time ∧
    ∃ n2, node_find (node_update (1/2) packetW0 [node_create 5]) 5 = some n2 ∧
      (node_create 5).last_seen ≤ n2.last_seen := by
  refine ⟨by decide, node_apply (1/2) packetW0 (node_create 5), ?_, ?_⟩
  · rw [node_find_update, if_pos (show (5:Nat) = packetW0.wlan_src from rfl),
      node_find, if_pos (node_create_src 5), Option.getD_some]
  · exact claim_C4 (1/2) packetW0 [node_create 5] 5 (node_create 5) _
      (by decide)
      (by rw [node_find, if_pos (node_create_src 5)])
      (by rw [node_find_update, if_pos (show (5:Nat) = packetW0.wlan_src from rfl),
        node_find, if_pos (node_create_src 5), Option.getD_some])

/-- C7: an update for A naming basestation B (B unseen), followed by an
update for B itself, leaves both A and B in the registry, with A's
basestation reference resolving to B and B holding no self reference. -/
theorem claim_C7 (w : ℚ) (ns : List node_info) (p1 p2 : packet_info)
    (A B : Nat) (h1src : p1.wlan_src = A) (h1b : p1.wlan_bssid = some B)
    (hBA : B ≠ A) (hBnot : node_find ns B = none) (h2src : p2.wlan_src = B) :
    ∃ nA nB,
      node_find (node_update w p2 (node_update w p1 ns)) A = some nA ∧
      node_find (node_update w p2 (node_update w p1 ns)) B = some nB ∧
      nA.wlan_ap_node = some B ∧ nB.wlan_ap_node ≠ some B := by
  have hA1 : node_find (node_update w p1 ns) A =
      some (node_apply w p1 ((node_find ns A).getD (node_create A))) := by
    rw [node_find_update, if_pos h1src.symm]
  have hB1 : node_find (node_update w p1 ns) B = some (node_create B) := by
    rw [node_find_update, if_neg (by rw [h1src]; exact hBA),
      if_pos ⟨by rw [h1b], hBnot⟩]
  have hA2 : node_find (node_update w p2 (node_update w p1 ns)) A =
      node_find (node_update w p1 ns) A := by
    rw [node_find_update, if_neg (by rw [h2src]; exact fun e => hBA e.symm),
      if_neg ?_]
    rintro ⟨_, e⟩
    rw [hA1] at e
    exact Option.noConfusion e
  have hB2 : node_find (node_update w p2 (node_update w p1 ns)) B =
      some (node_apply w p2 (node_create B)) := by
    rw [node_find_update, if_pos h2src.symm, hB1, Option.getD_some]
  refine ⟨_, _, hA2.trans hA1, hB2, ?_, ?_⟩
  · have : B ≠ p1.wlan_src := by rw [h1src]; exact hBA
    simp [node_apply, h1b, this]
  · cases hb2 : p2.wlan_bssid with
    | none => simp [node_apply, hb2, node_create]
    | some c =>
      by_cases hc : c = p2.wlan_src
      · simp [node_apply, hb2, hc, node_create]
      · rw [h2src] at hc
        have : ¬ c = p2.wlan_src := by rw [h2src]; exact hc
        simp [node_apply, hb2, this]
        exact hc

/-- Witness for C7 at concrete addresses A = 1, B = 2. -/
theorem claim_C7_witness :
    ∃ nA nB,
      node_find (node_update (1/2)
        { wlan_src := 2, pkt_time := 3, pkt_type := 1, wlan_bssid := none,
          wlan_essid := none, wlan_channel := none, phy_signal := none,
          wlan_tsf := none, wlan_bintval := none, wlan_retries := none,
          wlan_seqno := none, wlan_chan_width := none, ip_src := none }
        (node_update (1/2)
          { wlan_src := 1, pkt_time := 2, pkt_type := 1, wlan_bssid := some 2,
            wlan_essid := none, wlan_channel := none, phy_signal := none,
            wlan_tsf := none, wlan_bintval := none, wlan_retries := none,
            wlan_seqno := none, wlan_chan_width := none, ip_src := none }
          [])) 1 = some nA ∧
      node_find (node_update (1/2)
        { wlan_src := 2, pkt_time := 3, pkt_type := 1, wlan_bssid := none,
          wlan_essid := none, wlan_channel := none, phy_signal := none,
          wlan_tsf := none, wlan_bintval := none, wlan_retries := none,
          wlan_seqno := none, wlan_chan_width := none, ip_src := none }
        (node_update (1/2)
          { wlan_src := 1, pkt_time := 2, pkt_type := 1, wlan_bssid := some 2,
            wlan_essid := none, wlan_channel := none, phy_signal := none,
            wlan_tsf := none, wlan_bintval := none, wlan_retries := none,
            wlan_seqno := none, wlan_chan_width := none, ip_src := none }
          [])) 2 = some nB ∧
      nA.wlan_ap_node = some 2 ∧ nB.wlan_ap_node ≠ some 2 :=
  claim_C7 (1/2) [] _ _ 1 2 rfl rfl (by decide) rfl rfl

theorem node_mem_srcs (ns : List node_info) (a : Nat) :
    node_mem ns a = true ↔ a ∈ ns.map (fun n => n.wlan_src) := by
  induction ns with
  | nil => simp [node_mem]
  | cons n ns ih =>
    simp only [node_mem, Bool.or_eq_true, List.map_cons, List.mem_cons, ih,
      decide_eq_true_eq]
    exact or_congr eq_comm Iff.rfl

theorem map_src_update_map (w : ℚ) (p : packet_info) (l : List node_info) :
    (l.map (fun n => if n.wlan_src = p.wlan_src then node_apply w p n
      else n)).map (fun n => n.wlan_src) = l.map (fun n => n.wlan_src) := by
  rw [List.map_map]
  apply List.map_congr_left
  intro n _
  by_cases h : n.wlan_src = p.wlan_src <;> simp [h, node_apply_src]

theorem node_update_srcs (w : ℚ) (p : packet_info) (ns : List node_info) :
    ∃ extra, (node_update w p ns).map (fun n => n.wlan_src) =
      ns.map (fun n => n.wlan_src) ++ extra := by
  have hstage : ∃ e1, ((if node_mem ns p.wlan_src then ns
      else ns ++ [node_create p.wlan_src]).map
      (fun n => if n.wlan_src = p.wlan_src then node_apply w p n
        else n)).map (fun n => n.wlan_src) =
      ns.map (fun n => n.wlan_src) ++ e1 := by
    by_cases hmem : node_mem ns p.wlan_src
    · exact ⟨[], by rw [if_pos hmem, map_src_update_map, List.append_nil]⟩
    · refine ⟨[p.wlan_src], ?_⟩
      rw [if_neg hmem, map_src_update_map, List.map_append]
      rfl
  obtain ⟨e1, he1⟩ := hstage
  cases hb : p.wlan_bssid with
  | none =>
    refine ⟨e1, ?_⟩
    simp only [node_update, hb]
    exact he1
  | some b =>
    simp only [node_update, hb]
    by_cases hbsrc : b = p.wlan_src
    · rw [if_pos hbsrc]
      exact ⟨e1, he1⟩
    · rw [if_neg hbsrc]
      by_cases hmem2 : node_mem ((if node_mem ns p.wlan_src then ns
          else ns ++ [node_create p.wlan_src]).map
        (fun n => if n.wlan_src = p.wlan_src then node_apply w p n else n)) b
      · rw [if_pos hmem2]
        exact ⟨e1, he1⟩
      · rw [if_neg hmem2]
        refine ⟨e1 ++ [b], ?_⟩
        rw [List.map_append, he1, List.append_assoc]
        rfl

theorem node_update_srcs_nodup (w : ℚ) (p : packet_info)
    (ns : List node_info)
    (h : (ns.map (fun n => n.wlan_src)).Nodup) :
    ((node_update w p ns).map (fun n => n.wlan_src)).Nodup := by
  have hstage : ((if node_mem ns p.wlan_src then ns
      else ns ++ [node_create p.wlan_src]).map
      (fun n => if n.wlan_src = p.wlan_src then node_apply w p n
        else n)).map (fun n => n.wlan_src) =
      (if node_mem ns p.wlan_src then ns
      else ns ++ [node_create p.wlan_src]).map (fun n => n.wlan_src) :=
    map_src_update_map w p _
  have hstage_nodup : ((if node_mem ns p.wlan_src then ns
      else ns ++ [node_create p.wlan_src]).map
      (fun n => if n.wlan_src = p.wlan_src then node_apply w p n
        else n)).map (fun n => n.wlan_src) |>.Nodup := by
    rw [hstage]
    by_cases hmem : node_mem ns p.wlan_src
    · rw [if_pos hmem]; exact h
    · rw [if_neg hmem, List.map_append]
      rw [List.nodup_append]
      refine ⟨h, by simp, ?_⟩
      intro z hz hz2
      have hz3 : z = p.wlan_src := by
        simpa [node_create_src] using hz2
      rw [hz3] at hz
      exact hmem ((node_mem_srcs ns p.wlan_src).mpr hz)
  cases hb : p.wlan_bssid with
  | none =>
    simp only [node_update, hb]
    exact hstage_nodup
  | some b =>
    simp only [node_update, hb]
    by_cases hbsrc : b = p.wlan_src
    · rw [if_pos hbsrc]; exact hstage_nodup
    · rw [if_neg hbsrc]
      by_cases hmem2 : node_mem ((if node_mem ns p.wlan_src then ns
          else ns ++ [node_create p.wlan_src]).map
        (fun n => if n.wlan_src = p.wlan_src then node_apply w p n else n)) b
      · rw [if_pos hmem2]; exact hstage_nodup
      · rw [if_neg hmem2, List.map_append, List.nodup_append]
        refine ⟨hstage_nodup, by simp, ?_⟩
        intro z hz hz2
        have hz3 : z = b := by simpa [node_create_src] using hz2
        rw [hz3] at hz
        exact hmem2 ((node_mem_srcs _ b).mpr hz)

/-- C3: from an empty registry, any sequence of updates keeps at most
one record per source address, and updating never changes or reorders
the addresses of existing records — it can only append fresh ones. -/
theorem claim_C3 (w : ℚ) (ps : List packet_info) :
    ((ps.foldl (fun ns p => node_update w p ns) []).map
      (fun n => n.wlan_src)).Nodup ∧
    ∀ (ns : List node_info) (p : packet_info), ∃ extra,
      (node_update w p ns).map (fun n => n.wlan_src) =
        ns.map (fun n => n.wlan_src) ++ extra := by
  constructor
  · have haux : ∀ (qs : List packet_info) (acc : List node_info),
        ((acc.map (fun n => n.wlan_src)).Nodup) →
        (((qs.foldl (fun ns p => node_update w p ns) acc).map
          (fun n => n.wlan_src)).Nodup) := by
      intro qs
      induction qs with
      | nil => intro acc h; exact h
      | cons p qs ih =>
        intro acc h
        exact ih _ (node_update_srcs_nodup w p acc h)
    exact haux ps [] (by simp)
  · intro ns p
    exact node_update_srcs w p ns

/-- C2: after `node_timeout(now, T)`, no node whose last-seen is older
than `now - T` remains (the removed record owns its channel records and
group membership, which go with it), and every remaining node's
basestation back-reference to a removed node is absent. -/
theorem claim_C2 (nodes : List node_info) (now tout : Nat)
    (hnd : (nodes.map (fun n => n.wlan_src)).Nodup) :
    (∀ n2 ∈ node_timeout nodes now tout, now - tout ≤ n2.last_seen) ∧
    (∀ n ∈ nodes, n.last_seen < now - tout →
      (∀ n2 ∈ node_timeout nodes now tout, n2.wlan_src ≠ n.wlan_src) ∧
      (∀ n2 ∈ node_timeout nodes now tout,
        n2.wlan_ap_node ≠ some n.wlan_src)) := by
  simp only [node_timeout]
  have hg_fields : ∀ m : node_info,
      ((if m.wlan_ap_node.all (fun a => node_mem (nodes.filter
          (fun n => decide (now - tout ≤ n.last_seen))) a) then m
        else { m with wlan_ap_node := none }).wlan_src = m.wlan_src ∧
       (if m.wlan_ap_node.all (fun a => node_mem (nodes.filter
          (fun n => decide (now - tout ≤ n.last_seen))) a) then m
        else { m with wlan_ap_node := none }).last_seen = m.last_seen) := by
    intro m
    by_cases h2 : m.wlan_ap_node.all (fun a => node_mem (nodes.filter
        (fun n => decide (now - tout ≤ n.last_seen))) a)
    · rw [if_pos h2]; exact ⟨rfl, rfl⟩
    · rw [if_neg h2]; exact ⟨rfl, rfl⟩
  have hkept : ∀ m ∈ nodes.filter (fun n => decide (now - tout ≤ n.last_seen)),
      m ∈ nodes ∧ now - tout ≤ m.last_seen := by
    intro m hm
    rw [List.mem_filter] at hm
    exact ⟨hm.1, of_decide_eq_true hm.2⟩
  constructor
  · intro n2 hn2
    rw [List.mem_map] at hn2
    obtain ⟨m, hm, he⟩ := hn2
    rw [← he, (hg_fields m).2]
    exact (hkept m hm).2
  · intro n hn hexp
    have hinj := List.inj_on_of_nodup_map hnd
    have hsrc_ne : ∀ m ∈ nodes.filter
        (fun x => decide (now - tout ≤ x.last_seen)),
        m.wlan_src ≠ n.wlan_src := by
      intro m hm he
      obtain ⟨hm1, hm2⟩ := hkept m hm
      have : m = n := hinj hm1 hn he
      rw [this] at hm2
      exact absurd hexp (by omega)
    constructor
    · intro n2 hn2
      rw [List.mem_map] at hn2
      obtain ⟨m, hm, he⟩ := hn2
      rw [← he, (hg_fields m).1]
      exact hsrc_ne m hm
    · intro n2 hn2
      rw [List.mem_map] at hn2
      obtain ⟨m, hm, he⟩ := hn2
      rw [← he]
      by_cases h2 : m.wlan_ap_node.all (fun a => node_mem (nodes.filter
          (fun x => decide (now - tout ≤ x.last_seen))) a)
      · rw [if_pos h2]
        cases hma : m.wlan_ap_node with
        | none => exact fun e => Option.noConfusion e
        | some a =>
          rw [hma] at h2
          have h3 : node_mem (nodes.filter
              (fun x => decide (now - tout ≤ x.last_seen))) a := by
            simpa [Option.all] using h2
          intro he2
          rw [Option.some.injEq] at he2
          obtain ⟨k, hk⟩ := node_mem_find _ a h3
          have hkmem := node_find_mem hk
          have hksrc := node_find_src hk
          exact hsrc_ne k hkmem (by rw [hksrc, he2])
      · rw [if_neg h2]
        exact fun e => Option.noConfusion e

/-- Witness for C2: one expired and one live node referencing it. -/
theorem claim_C2_witness :
    (∀ n2 ∈ node_timeout [node_create 1,
        { node_create 2 with last_seen := 50, wlan_ap_node := some 1 }] 100 40,
      (100:Nat) - 40 ≤ n2.last_seen) ∧
    (∀ n ∈ [node_create 1,
        { node_create 2 with last_seen := 50, wlan_ap_node := some 1 }],
      n.last_seen < 100 - 40 →
      (∀ n2 ∈ node_timeout [node_create 1,
          { node_create 2 with last_seen := 50, wlan_ap_node := some 1 }] 100 40,
        n2.wlan_src ≠ n.wlan_src) ∧
      (∀ n2 ∈ node_timeout [node_create 1,
          { node_create 2 with last_seen := 50, wlan_ap_node := some 1 }] 100 40,
        n2.wlan_ap_node ≠ some n.wlan_src)) :=
  claim_C2 [node_create 1,
    { node_create 2 with last_seen := 50, wlan_ap_node := some 1 }] 100 40
    (by decide)

/-- The expected evolution of one node's record under a sequence of
packets all addressed to it. -/
def node_fold_opt (w : ℚ) (a : Nat) (ps : List packet_info)
    (o : Option node_info) : Option node_info :=
  ps.foldl (fun o p => some (node_apply w p (o.getD (node_create a)))) o

theorem node_apply_num (w : ℚ) (p : packet_info) (n : node_info) :
    (node_apply w p n).num_on_channels =
      (node_apply w p n).on_channels.length := rfl

theorem node_find_foldl (w : ℚ) (a : Nat) :
    ∀ (ps : List packet_info) (acc : List node_info),
      (∀ p ∈ ps, p.wlan_src = a) →
      node_find (ps.foldl (fun ns p => node_update w p ns) acc) a =
        node_fold_opt w a ps (node_find acc a) := by
  intro ps
  induction ps with
  | nil => intro acc _; rfl
  | cons p ps ih =>
    intro acc hsrc
    have hpa : p.wlan_src = a := hsrc p (List.mem_cons_self p ps)
    rw [List.foldl_cons, ih _ (fun q hq => hsrc q (List.mem_cons_of_mem _ hq))]
    rw [node_fold_opt, node_fold_opt, List.foldl_cons]
    congr 1
    rw [node_find_update, if_pos hpa.symm]

theorem fold_opt_channels (w : ℚ) (a : Nat) :
    ∀ (ps : List packet_info) (n0 : node_info),
      ∃ n1, node_fold_opt w a ps (some n0) = some n1 ∧
        n1.on_channels = (ps.filterMap (fun p => p.wlan_channel)).foldl
          (fun l c => channel_observe c l) n0.on_channels ∧
        (n1 = n0 ∨ n1.num_on_channels = n1.on_channels.length) := by
  intro ps
  induction ps with
  | nil => intro n0; exact ⟨n0, rfl, rfl, Or.inl rfl⟩
  | cons p ps ih =>
    intro n0
    obtain ⟨n1, h1, h2, h3⟩ := ih (node_apply w p n0)
    refine ⟨n1, ?_, ?_, ?_⟩
    · simp only [node_fold_opt, List.foldl_cons, Option.getD_some]
      rw [node_fold_opt] at h1
      exact h1
    · rw [h2]
      cases hc : p.wlan_channel with
      | none => simp [List.filterMap_cons, hc, node_apply]
      | some c => simp [List.filterMap_cons, hc, node_apply]
    · rcases h3 with rfl | h3
      · exact Or.inr (node_apply_num ..)
      · exact Or.inr h3

theorem channel_observe_keys (c : Nat) (l : List (Nat × Nat)) (c0 : Nat)
    (h : c0 ∈ l.map Prod.fst) :
    c0 ∈ (channel_observe c l).map Prod.fst := by
  rw [channel_observe]
  by_cases hany : l.any (fun e => e.1 = c)
  · rw [if_pos hany, List.map_map]
    have heq : l.map (Prod.fst ∘ fun e : Nat × Nat =>
        if e.1 = c then (e.1, e.2 + 1) else e) = l.map Prod.fst := by
      apply List.map_congr_left
      intro e _
      by_cases he : e.1 = c <;> simp [he]
    rw [heq]
    exact h
  · rw [if_neg hany, List.map_append]
    exact List.mem_append_left _ h

/-- C6: feeding channels 6, 6, 11 to one node, in any interleaving with
other updates for that node, yields two distinct channels with counters
2 and 1; channel membership only ever grows while the node exists. -/
theorem claim_C6 (w : ℚ) (a : Nat) (ps : List packet_info)
    (hsrc : ∀ p ∈ ps, p.wlan_src = a)
    (hch : ps.filterMap (fun p => p.wlan_channel) = [6, 6, 11]) :
    (∃ n, node_find (ps.foldl (fun ns p => node_update w p ns) []) a =
        some n ∧
      n.num_on_channels = 2 ∧ chan_count n.on_channels 6 = 2 ∧
      chan_count n.on_channels 11 = 1) ∧
    (∀ (ns : List node_info) (p : packet_info) (b : Nat) (m m2 : node_info),
      node_find ns b = some m →
      node_find (node_update w p ns) b = some m2 →
      ∀ c ∈ m.on_channels.map Prod.fst, c ∈ m2.on_channels.map Prod.fst) := by
  constructor
  · cases hps : ps with
    | nil => rw [hps] at hch; simp at hch
    | cons p ps2 =>
      rw [hps] at hsrc hch
      rw [node_find_foldl w a _ _ hsrc]
      obtain ⟨n1, h1, h2, h3⟩ :=
        fold_opt_channels w a ps2 (node_apply w p (node_create a))
      have hchain : n1.on_channels =
          ((p :: ps2).filterMap (fun q => q.wlan_channel)).foldl
            (fun l c => channel_observe c l) [] := by
        rw [h2]
        cases hc : p.wlan_channel with
        | none =>
          have hfil : (p :: ps2).filterMap (fun q => q.wlan_channel) =
              ps2.filterMap (fun q => q.wlan_channel) := by
            simp [List.filterMap_cons, hc]
          have hbase : (node_apply w p (node_create a)).on_channels = [] := by
            simp [node_apply, hc, node_create]
          rw [hfil, hbase]
        | some c =>
          have hfil : (p :: ps2).filterMap (fun q => q.wlan_channel) =
              c :: ps2.filterMap (fun q => q.wlan_channel) := by
            simp [List.filterMap_cons, hc]
          have hbase : (node_apply w p (node_create a)).on_channels =
              channel_observe c [] := by
            simp [node_apply, hc, node_create]
          rw [hfil, List.foldl_cons, hbase]
      rw [hch] at hchain
      have hconc : n1.on_channels = [(6, 2), (11, 1)] := by
        rw [hchain]; decide
      have hnum : n1.num_on_channels = n1.on_channels.length := by
        rcases h3 with rfl | h3
        · exact node_apply_num ..
        · exact h3
      refine ⟨n1, ?_, ?_, ?_, ?_⟩
      · simp only [node_fold_opt, List.foldl_cons]
        rw [node_fold_opt] at h1
        exact h1
      · rw [hnum, hconc]; rfl
      · rw [hconc]; decide
      · rw [hconc]; decide
  · intro ns p b m m2 hf hf2 c hc
    rw [node_find_update] at hf2
    by_cases hb : b = p.wlan_src
    · rw [if_pos hb, hf, Option.getD_some, Option.some.injEq] at hf2
      rw [← hf2]
      cases hcp : p.wlan_channel with
      | none =>
        have : (node_apply w p m).on_channels = m.on_channels := by
          simp [node_apply, hcp]
        rw [this]
        exact hc
      | some ch =>
        have : (node_apply w p m).on_channels =
            channel_observe ch m.on_channels := by
          simp [node_apply, hcp]
        rw [this]
        exact channel_observe_keys ch _ c hc
    · rw [if_neg hb] at hf2
      by_cases hcond : p.wlan_bssid = some b ∧ node_find ns b = none
      · exact absurd (hf.symm.trans hcond.2) (fun e => Option.noConfusion e)
      · rw [if_neg hcond, hf, Option.some.injEq] at hf2
        rw [← hf2]
        exact hc

/-- Witness for C6 on three concrete packets for address 5 carrying
channels 6, 6 and 11. -/
theorem claim_C6_witness :
    (∃ n, node_find ([{ packetW0 with wlan_channel := some 6 },
        { packetW0 with wlan_channel := some 6 },
        { packetW0 with wlan_channel := some 11 }].foldl
        (fun ns p => node_update (1/2) p ns) []) 5 = some n ∧
      n.num_on_channels = 2 ∧ chan_count n.on_channels 6 = 2 ∧
      chan_count n.on_channels 11 = 1) ∧
    (∀ (ns : List node_info) (p : packet_info) (b : Nat) (m m2 : node_info),
      node_find ns b = some m →
      node_find (node_update (1/2) p ns) b = some m2 →
      ∀ c ∈ m.on_channels.map Prod.fst, c ∈ m2.on_channels.map Prod.fst) :=
  claim_C6 (1/2) 5 [{ packetW0 with wlan_channel := some 6 },
      { packetW0 with wlan_channel := some 6 },
      { packetW0 with wlan_channel := some 11 }]
    (by decide) (by rfl)

/-- C5: feeding the signal samples −70, −40, −85 to a fresh node's
signal aggregator yields max = −40, sum = −195, count = 3, and for any
smoothing weight in (0,1) the smoothed average lies strictly between
the minimum −85 and the maximum −40 of the samples. -/
theorem claim_C5 (w : ℚ) (a : Nat) (p1 p2 p3 : packet_info)
    (h1 : p1.phy_signal = some (-70)) (h2 : p2.phy_signal = some (-40))
    (h3 : p3.phy_signal = some (-85)) (hw0 : 0 < w) (hw1 : w < 1) :
    (node_apply w p3 (node_apply w p2 (node_apply w p1
        (node_create a)))).phy_sig_max = -40 ∧
    (node_apply w p3 (node_apply w p2 (node_apply w p1
        (node_create a)))).phy_sig_sum = -195 ∧
    (node_apply w p3 (node_apply w p2 (node_apply w p1
        (node_create a)))).phy_sig_count = 3 ∧
    -85 < (node_apply w p3 (node_apply w p2 (node_apply w p1
        (node_create a)))).phy_sig_avg ∧
    (node_apply w p3 (node_apply w p2 (node_apply w p1
        (node_create a)))).phy_sig_avg < -40 := by
  have key : ∀ (p : packet_info) (s : Int) (n : node_info),
      p.phy_signal = some s →
      (node_apply w p n).phy_sig_count = n.phy_sig_count + 1 ∧
      (node_apply w p n).phy_sig_sum = n.phy_sig_sum + s ∧
      (node_apply w p n).phy_sig_max =
        (if n.phy_sig_count = 0 ∨ n.phy_sig_max < s then s
         else n.phy_sig_max) ∧
      (node_apply w p n).phy_sig_avg =
        (if n.phy_sig_count = 0 then (s : ℚ)
         else n.phy_sig_avg + w * ((s : ℚ) - n.phy_sig_avg)) := by
    intro p s n hp
    refine ⟨?_, ?_, ?_, ?_⟩ <;> simp [node_apply, hp]
  obtain ⟨kc1, ks1, km1, ka1⟩ := key p1 (-70) (node_create a) h1
  have c1 : (node_apply w p1 (node_create a)).phy_sig_count = 1 := by
    rw [kc1]; rfl
  have m1 : (node_apply w p1 (node_create a)).phy_sig_max = -70 := by
    rw [km1, if_pos (Or.inl (show (node_create a).phy_sig_count = 0 from rfl))]
  have s1 : (node_apply w p1 (node_create a)).phy_sig_sum = -70 := by
    rw [ks1]; rfl
  have a1 : (node_apply w p1 (node_create a)).phy_sig_avg = -70 := by
    rw [ka1, if_pos (show (node_create a).phy_sig_count = 0 from rfl)]
    norm_num
  obtain ⟨kc2, ks2, km2, ka2⟩ :=
    key p2 (-40) (node_apply w p1 (node_create a)) h2
  have c2 : (node_apply w p2 (node_apply w p1
      (node_create a))).phy_sig_count = 2 := by
    rw [kc2, c1]
  have m2 : (node_apply w p2 (node_apply w p1
      (node_create a))).phy_sig_max = -40 := by
    rw [km2, if_pos (Or.inr (by rw [m1]; norm_num))]
  have s2 : (node_apply w p2 (node_apply w p1
      (node_create a))).phy_sig_sum = -110 := by
    rw [ks2, s1]
    norm_num
  have a2 : (node_apply w p2 (node_apply w p1
      (node_create a))).phy_sig_avg = -70 + 30 * w := by
    rw [ka2, if_neg (by rw [c1]; exact one_ne_zero), a1]
    push_cast
    ring
  obtain ⟨kc3, ks3, km3, ka3⟩ :=
    key p3 (-85) (node_apply w p2 (node_apply w p1 (node_create a))) h3
  have c3 : (node_apply w p3 (node_apply w p2 (node_apply w p1
      (node_create a)))).phy_sig_count = 3 := by
    rw [kc3, c2]
  have m3 : (node_apply w p3 (node_apply w p2 (node_apply w p1
      (node_create a)))).phy_sig_max = -40 := by
    rw [km3, if_neg (by rw [c2, m2]; norm_num), m2]
  have s3 : (node_apply w p3 (node_apply w p2 (node_apply w p1
      (node_create a)))).phy_sig_sum = -195 := by
    rw [ks3, s2]
    norm_num
  have a3 : (node_apply w p3 (node_apply w p2 (node_apply w p1
      (node_create a)))).phy_sig_avg =
      (-70 + 30 * w) + w * (-85 - (-70 + 30 * w)) := by
    rw [ka3, if_neg (by rw [c2]; norm_num), a2]
    push_cast
    ring
  refine ⟨m3, s3, c3, ?_, ?_⟩
  · rw [a3]
    nlinarith [mul_pos hw0 (sub_pos.mpr hw1)]
  · rw [a3]
    nlinarith [mul_pos hw0 (sub_pos.mpr hw1)]

/-- Witness for C5 with weight 1/2 and concrete packets. -/
theorem claim_C5_witness :
    (node_apply (1/2) { packetW0 with phy_signal := some (-85) }
      (node_apply (1/2) { packetW0 with phy_signal := some (-40) }
        (node_apply (1/2) { packetW0 with phy_signal := some (-70) }
          (node_create 5)))).phy_sig_max = -40 ∧
    (node_apply (1/2) { packetW0 with phy_signal := some (-85) }
      (node_apply (1/2) { packetW0 with phy_signal := some (-40) }
        (node_apply (1/2) { packetW0 with phy_signal := some (-70) }
          (node_create 5)))).phy_sig_sum = -195 ∧
    (node_apply (1/2) { packetW0 with phy_signal := some (-85) }
      (node_apply (1/2) { packetW0 with phy_signal := some (-40) }
        (node_apply (1/2) { packetW0 with phy_signal := some (-70) }
          (node_create 5)))).phy_sig_count = 3 ∧
    -85 < (node_apply (1/2) { packetW0 with phy_signal := some (-85) }
      (node_apply (1/2) { packetW0 with phy_signal := some (-40) }
        (node_apply (1/2) { packetW0 with phy_signal := some (-70) }
          (node_create 5)))).phy_sig_avg ∧
    (node_apply (1/2) { packetW0 with phy_signal := some (-85) }
      (node_apply (1/2) { packetW0 with phy_signal := some (-40) }
        (node_apply (1/2) { packetW0 with phy_signal := some (-70) }
          (node_create 5)))).phy_sig_avg < -40 :=
  claim_C5 (1/2) 5 _ _ _ rfl rfl rfl (by norm_num) (by norm_num)

end Node
